import Mathlib

/-!
Shallow embedding of the heuristic solver of Petro-HRCD-FLP
(`src/heuristic_solver.py`) and verification of its specification.

Numbers are modelled as exact rationals (`ℚ`); Python's `math.ceil`
becomes `Int.ceil`. Python's `float('inf')` sentinel is modelled by
`Option ℚ` with `none` standing for `+infinity` (for costs) resp. for
"no candidate yet" (for running minima, which Python initialises to
`inf`). Lists index as in Python: `pyGet` reproduces Python's negative
indexing (`l[-1]` is the last element), which the solver relies on in
`_open_move` when an assignment still holds the `-1` sentinel.
-/

namespace HRCD

/-- The problem-instance dictionary `data` passed to `HeuristicSolver`:
facility fixed costs `F_i`, operational costs `O_i`, capacities `CAP_i`,
site demands `D_j`, the distance matrix `d_ij`, the SLA radius `S_max`,
minimum utilization `U_min`, supervision ratio `alpha`, scenario
efficiencies `E_k` and unit costs `C_k` (keys `Robot` / `Human`). -/
structure ProblemData where
  num_I : Nat
  num_J : Nat
  F_i : List ℚ
  O_i : List ℚ
  CAP_i : List ℚ
  D_j : List ℚ
  d_ij : List (List ℚ)
  S_max : ℚ
  U_min : ℚ
  alpha : ℚ
  E_robot : ℚ
  E_human : ℚ
  C_robot : ℚ
  C_human : ℚ
  deriving Repr, DecidableEq

/-- Python list read with negative-index semantics: `l[i]` for `i < 0`
reads `l[len l + i]`; out-of-range reads return the default (the Python
program never performs one on the paths modelled here). -/
def pyGet (l : List α) (i : ℤ) (dflt : α) : α :=
  if i < 0 then l.getD (l.length - (-i).toNat) dflt else l.getD i.toNat dflt

/-- Mutable solver state: `y` (facility open flags, 0/1 as in the numpy
array), `assignment` (site → facility index, `-1` = unassigned) and the
per-facility `resources` dict, modelled as a `(robot, human)` list. -/
structure SolverState where
  y : List Nat
  assignment : List ℤ
  resources : List (ℤ × ℤ)
  deriving Repr, DecidableEq

/-- The fresh state built by `HeuristicSolver.__init__`. -/
def initState (data : ProblemData) : SolverState :=
  { y := List.replicate data.num_I 0
  , assignment := List.replicate data.num_J (-1)
  , resources := List.replicate data.num_I (0, 0) }

/-- `HeuristicSolver.calculate_resource_mix`: closed-form robot/human
sizing for a demand level at facility `facility_idx`; `none` models the
Python `None` (INFEASIBLE) return. -/
def calculate_resource_mix (data : ProblemData) (total_demand : ℚ)
    (facility_idx : Nat) : Option (ℤ × ℤ) :=
  if total_demand ≤ 0 then some (0, 0)
  else
    let denom := data.E_robot + data.alpha * data.E_human
    let req_robots := ⌈total_demand / denom⌉
    let req_humans := ⌈data.alpha * (req_robots : ℚ)⌉
    let min_resources := ⌈data.U_min * data.CAP_i.getD facility_idx 0⌉
    let rh :=
      if req_robots + req_humans < min_resources then
        let extra_needed := min_resources - (req_robots + req_humans)
        let r := req_robots + extra_needed
        (r, ⌈data.alpha * (r : ℚ)⌉)
      else (req_robots, req_humans)
    if (rh.1 : ℚ) + (rh.2 : ℚ) > data.CAP_i.getD facility_idx 0 then none
    else some rh

/-- `HeuristicSolver._get_facility_demand`: total demand currently
assigned to facility `i`. -/
def facilityDemand (data : ProblemData) (assignment : List ℤ) (i : Nat) : ℚ :=
  (List.range data.num_J).foldl
    (fun acc j =>
      if assignment.getD j (-1) = (i : ℤ) then acc + data.D_j.getD j 0 else acc) 0

/-- `HeuristicSolver._get_facility_sites`: sites assigned to facility `i`. -/
def facilitySites (data : ProblemData) (assignment : List ℤ) (i : Nat) : List Nat :=
  (List.range data.num_J).filter (fun j => assignment.getD j (-1) = (i : ℤ))

/-- `HeuristicSolver._can_serve`: SLA check `d_ij[facility][site] <= S_max`.
The facility index is an `ℤ` because `_swap_move` and `_open_move` can pass
the `-1` sentinel through it (Python negative indexing applies). -/
def can_serve (data : ProblemData) (facility_idx : ℤ) (demand_site_idx : Nat) : Bool :=
  decide ((pyGet data.d_ij facility_idx []).getD demand_site_idx 0 ≤ data.S_max)

/-- `HeuristicSolver._update_facility_state`: recompute `y` and
`resources` from the current assignment (the Python `if res:` keeps the
old resources entry when the mix is `None`, since a `(0, 0)` tuple is
truthy while `None` is not). -/
def update_facility_state (data : ProblemData) (st : SolverState) : SolverState :=
  (List.range data.num_I).foldl
    (fun st i =>
      let demand := facilityDemand data st.assignment i
      if 0 < demand then
        let st := { st with y := st.y.set i 1 }
        match calculate_resource_mix data demand i with
        | some rh => { st with resources := st.resources.set i rh }
        | none => st
      else
        { st with y := st.y.set i 0, resources := st.resources.set i (0, 0) })
    st

/-- The per-facility accumulation step of `calculate_total_cost`:
facilities with positive assigned demand add fixed + operational cost
and the resource cost of their mix, an infeasible mix poisons the
accumulator to `none` (`inf`), zero-demand facilities add nothing. -/
def costFoldStep (data : ProblemData) (assignment : List ℤ)
    (acc : Option ℚ) (i : Nat) : Option ℚ :=
  match acc with
  | none => none
  | some c =>
    let dem := facilityDemand data assignment i
    if 0 < dem then
      match calculate_resource_mix data dem i with
      | none => none
      | some (r, h) =>
        some (c + (data.F_i.getD i 0 + data.O_i.getD i 0)
                + ((r : ℚ) * data.C_robot + (h : ℚ) * data.C_human))
    else some c

/-- `HeuristicSolver.calculate_total_cost`: `none` models `float('inf')`. -/
def calculate_total_cost (data : ProblemData) (assignment : List ℤ) : Option ℚ :=
  if (List.range data.num_J).any (fun j => assignment.getD j (-1) = -1) then
    none
  else
    (List.range data.num_I).foldl (costFoldStep data assignment) (some 0)

/-- Strict `<` on costs where `none` is `+infinity` (and, for running
minima, the `inf` initial value): `inf < x` is false, `x < inf` is true
for finite `x`. -/
def ltInf (a b : Option ℚ) : Bool :=
  match a, b with
  | none, _ => false
  | some _, none => true
  | some x, some y => decide (x < y)

/-! ### Constructive greedy (`HeuristicSolver.constructive_greedy`) -/

/-- Stable insertion into a list already sorted by descending key
(ties keep their existing order, so the overall sort is deterministic
given the input order). Models `np.argsort(D_j)[::-1]`, whose outcome
on ties the program fixes deterministically by the input order. -/
def insertDesc (key : Nat → ℚ) (i : Nat) : List Nat → List Nat
  | [] => [i]
  | x :: xs => if key x < key i then i :: x :: xs else x :: insertDesc key i xs

/-- Deterministic descending sort by key (stable insertion sort). -/
def sortDesc (key : Nat → ℚ) : List Nat → List Nat
  | [] => []
  | x :: xs => insertDesc key x (sortDesc key xs)

/-- The site processing order `sorted_J = np.argsort(self.data.D_j)[::-1]`:
site indices in descending order of demand. -/
def sorted_J (data : ProblemData) : List Nat :=
  sortDesc (fun j => data.D_j.getD j 0) (List.range data.num_J)

/-- Marginal cost of assigning site `j` to facility `i` in the greedy
stage, given the sized mix `(r_new, h_new)`: variable resource cost plus
fixed + operational cost when the facility is not yet open. -/
def greedyMarginalCost (data : ProblemData) (st : SolverState)
    (i : Nat) (rh : ℤ × ℤ) : ℚ :=
  (rh.1 : ℚ) * data.C_robot + (rh.2 : ℚ) * data.C_human
    + (if st.y.getD i 0 = 0 then data.F_i.getD i 0 + data.O_i.getD i 0 else 0)

/-- The candidate-selection loop of `constructive_greedy` for one site:
running `(best_i, min_marginal_cost)` pair, `min_marginal_cost`
initialised to `inf` (`none`) and `best_i` to `-1`. -/
def greedyPick (data : ProblemData) (st : SolverState) (j : Nat) : ℤ :=
  ((List.range data.num_I).foldl
    (fun (acc : ℤ × Option ℚ) (i : Nat) =>
      if can_serve data (i : ℤ) j then
        let current_demand := facilityDemand data st.assignment i
        let new_demand := current_demand + data.D_j.getD j 0
        match calculate_resource_mix data new_demand i with
        | none => acc
        | some rh =>
          let cost_new := greedyMarginalCost data st i rh
          if ltInf (some cost_new) acc.2 then ((i : ℤ), some cost_new) else acc
      else acc)
    (-1, none)).1

/-- One iteration of the greedy loop: assign site `j` to the best
candidate (if any), mark it open and refresh its resources entry. -/
def greedyAssign (data : ProblemData) (st : SolverState) (j : Nat) : SolverState :=
  let best_i := greedyPick data st j
  if best_i = -1 then st
  else
    let st := { st with assignment := st.assignment.set j best_i
                      , y := st.y.set best_i.toNat 1 }
    let demand := facilityDemand data st.assignment best_i.toNat
    match calculate_resource_mix data demand best_i.toNat with
    | some rh => { st with resources := st.resources.set best_i.toNat rh }
    | none => st

/-- `HeuristicSolver.constructive_greedy`. -/
def constructive_greedy (data : ProblemData) (st : SolverState) : SolverState :=
  (sorted_J data).foldl (greedyAssign data) st

/-! ### Local-search move operators. Each returns the state after the
call together with the Python boolean result; a `true` result is a
committed (improving) move, a `false` result leaves the state as the
explicit reverts put it. -/

/-- Inner `for k` loop of `_shift_move` for a fixed site `j`. -/
def shiftTryK (data : ProblemData) (cc : Option ℚ) (j : Nat) (original_i : ℤ)
    (st : SolverState) : List Nat → SolverState × Bool
  | [] => (st, false)
  | k :: ks =>
    if (k : ℤ) = original_i then shiftTryK data cc j original_i st ks
    else if ¬ can_serve data (k : ℤ) j then shiftTryK data cc j original_i st ks
    else
      let st1 := { st with assignment := st.assignment.set j (k : ℤ) }
      let new_cost := calculate_total_cost data st1.assignment
      if ltInf new_cost cc then (update_facility_state data st1, true)
      else
        shiftTryK data cc j original_i
          { st1 with assignment := st1.assignment.set j original_i } ks

/-- Outer `for j` loop of `_shift_move`. -/
def shiftOuter (data : ProblemData) (cc : Option ℚ) (st : SolverState) :
    List Nat → SolverState × Bool
  | [] => (st, false)
  | j :: js =>
    let original_i := st.assignment.getD j (-1)
    match shiftTryK data cc j original_i st (List.range data.num_I) with
    | (st', true) => (st', true)
    | (st', false) => shiftOuter data cc st' js

/-- `HeuristicSolver._shift_move`. -/
def shift_move (data : ProblemData) (st : SolverState) : SolverState × Bool :=
  shiftOuter data (calculate_total_cost data st.assignment) st
    (List.range data.num_J)

/-- Inner `for j2` loop of `_swap_move` for a fixed site `j1`. -/
def swapTryJ2 (data : ProblemData) (cc : Option ℚ) (j1 : Nat) (i1 : ℤ)
    (st : SolverState) : List Nat → SolverState × Bool
  | [] => (st, false)
  | j2 :: rest =>
    let i2 := st.assignment.getD j2 (-1)
    if i1 = i2 then swapTryJ2 data cc j1 i1 st rest
    else if ¬ (can_serve data i2 j1 ∧ can_serve data i1 j2) then
      swapTryJ2 data cc j1 i1 st rest
    else
      let st1 := { st with assignment := (st.assignment.set j1 i2).set j2 i1 }
      let new_cost := calculate_total_cost data st1.assignment
      if ltInf new_cost cc then (update_facility_state data st1, true)
      else
        swapTryJ2 data cc j1 i1
          { st1 with assignment := (st1.assignment.set j1 i1).set j2 i2 } rest

/-- Outer `for j1` loop of `_swap_move`. -/
def swapOuter (data : ProblemData) (cc : Option ℚ) (st : SolverState) :
    List Nat → SolverState × Bool
  | [] => (st, false)
  | j1 :: js =>
    let i1 := st.assignment.getD j1 (-1)
    match swapTryJ2 data cc j1 i1 st
        (List.range' (j1 + 1) (data.num_J - (j1 + 1))) with
    | (st', true) => (st', true)
    | (st', false) => swapOuter data cc st' js

/-- `HeuristicSolver._swap_move`. -/
def swap_move (data : ProblemData) (st : SolverState) : SolverState × Bool :=
  swapOuter data (calculate_total_cost data st.assignment) st
    (List.range data.num_J)

/-! ### Drop move -/

/-- Revert loop `for j, orig_i in original_assignments.items()`. -/
def revertSites (orig : List (Nat × ℤ)) (a : List ℤ) : List ℤ :=
  orig.foldl (fun a p => a.set p.1 p.2) a

/-- Inner `for alt_i` loop of `_drop_move`: best alternative facility for
site `j`, by minimum incremental resource cost (`-1` when none). -/
def dropFindAlt (data : ProblemData) (assignment : List ℤ) (openFs : List Nat)
    (drop_i : Nat) (j : Nat) : ℤ :=
  (openFs.foldl
    (fun (acc : ℤ × Option ℚ) alt_i =>
      if alt_i = drop_i then acc
      else if ¬ can_serve data (alt_i : ℤ) j then acc
      else
        let current_alt_demand := facilityDemand data assignment alt_i
        let new_alt_demand := current_alt_demand + data.D_j.getD j 0
        match calculate_resource_mix data new_alt_demand alt_i with
        | none => acc
        | some rhNew =>
          let rhOld :=
            (calculate_resource_mix data current_alt_demand alt_i).getD (0, 0)
          let increase := ((rhNew.1 - rhOld.1) : ℚ) * data.C_robot
                        + ((rhNew.2 - rhOld.2) : ℚ) * data.C_human
          if ltInf (some increase) acc.2 then ((alt_i : ℤ), some increase) else acc)
    (-1, none)).1

/-- `for j in sites_at_i` redistribution loop of `_drop_move`; returns the
(partially) mutated assignment and whether every site found an
alternative (`redistribution_possible`). -/
def dropAssignSites (data : ProblemData) (openFs : List Nat) (drop_i : Nat) :
    List Nat → List ℤ → List ℤ × Bool
  | [], a => (a, true)
  | j :: rest, a =>
    let best_alt := dropFindAlt data a openFs drop_i j
    if best_alt = -1 then (a, false)
    else dropAssignSites data openFs drop_i rest (a.set j best_alt)

/-- `for drop_i in open_facilities` loop of `_drop_move`. -/
def dropLoop (data : ProblemData) (cc : Option ℚ) (openFs : List Nat)
    (st : SolverState) : List Nat → SolverState × Bool
  | [] => (st, false)
  | drop_i :: rest =>
    let sites_at_i := facilitySites data st.assignment drop_i
    if sites_at_i.isEmpty then dropLoop data cc openFs st rest
    else
      let original_assignments :=
        sites_at_i.map (fun j => (j, st.assignment.getD j (-1)))
      let ra := dropAssignSites data openFs drop_i sites_at_i st.assignment
      if ra.2 then
        let new_cost := calculate_total_cost data ra.1
        if ltInf new_cost cc then
          (update_facility_state data { st with assignment := ra.1 }, true)
        else
          dropLoop data cc openFs
            { st with assignment := revertSites original_assignments ra.1 } rest
      else
        dropLoop data cc openFs
          { st with assignment := revertSites original_assignments ra.1 } rest

/-- `HeuristicSolver._drop_move`. The open facilities are listed in
ascending index order and then stably sorted by ascending currently
assigned demand, as Python's stable `list.sort` does. -/
def drop_move (data : ProblemData) (st : SolverState) : SolverState × Bool :=
  let open_facilities :=
    sortDesc (fun i => -(facilityDemand data st.assignment i))
      ((List.range data.num_I).filter (fun i => st.y.getD i 0 = 1))
  dropLoop data (calculate_total_cost data st.assignment) open_facilities st
    open_facilities

/-! ### Open move -/

/-- The per-site body of `_open_move`'s savings scan: reads the site's
current distance through Python indexing (an unassigned site's `-1`
reads the last facility's row) and keeps the site when the candidate
facility is strictly closer. -/
def openSiteSaving (data : ProblemData) (a : List ℤ) (new_i j : Nat) :
    Option (Nat × ℚ) :=
  let current_i := a.getD j (-1)
  let current_dist := (pyGet data.d_ij current_i []).getD j 0
  let new_dist := (data.d_ij.getD new_i []).getD j 0
  if new_dist < current_dist then some (j, current_dist - new_dist) else none

/-- Stable insertion into a list sorted by descending saving. -/
def insertSaveDesc (p : Nat × ℚ) : List (Nat × ℚ) → List (Nat × ℚ)
  | [] => [p]
  | x :: xs => if x.2 < p.2 then p :: x :: xs else x :: insertSaveDesc p xs

/-- `site_savings.sort(key=..., reverse=True)`: stable descending sort. -/
def sortSavings : List (Nat × ℚ) → List (Nat × ℚ)
  | [] => []
  | x :: xs => insertSaveDesc x (sortSavings xs)

/-- `for new_i in closed_facilities` loop of `_open_move`. -/
def openLoop (data : ProblemData) (cc : Option ℚ) (st : SolverState) :
    List Nat → SolverState × Bool
  | [] => (st, false)
  | new_i :: rest =>
    let potential_sites :=
      (List.range data.num_J).filter (fun j => can_serve data (new_i : ℤ) j)
    if potential_sites.isEmpty then openLoop data cc st rest
    else
      let site_savings :=
        sortSavings (potential_sites.filterMap (openSiteSaving data st.assignment new_i))
      if 2 ≤ site_savings.length then
        let moved := site_savings.take 10
        let original_assignments :=
          moved.map (fun p => (p.1, st.assignment.getD p.1 (-1)))
        let a1 := moved.foldl (fun a p => a.set p.1 (new_i : ℤ)) st.assignment
        let new_cost := calculate_total_cost data a1
        if ltInf new_cost cc then
          (update_facility_state data { st with assignment := a1 }, true)
        else
          openLoop data cc
            { st with assignment := revertSites original_assignments a1 } rest
      else openLoop data cc st rest

/-- `HeuristicSolver._open_move`. -/
def open_move (data : ProblemData) (st : SolverState) : SolverState × Bool :=
  openLoop data (calculate_total_cost data st.assignment) st
    ((List.range data.num_I).filter (fun i => st.y.getD i 0 = 0))

/-! ### Local search (`HeuristicSolver.local_search`) -/

/-- One outer iteration of the `while` loop: the four move types in
fixed order, stopping at the first that commits. Returns the state after
the iteration and whether a move was committed (`improving`). -/
def localSearchPass (data : ProblemData) (st : SolverState) : SolverState × Bool :=
  match shift_move data st with
  | (st1, true) => (st1, true)
  | (st1, false) =>
    match swap_move data st1 with
    | (st2, true) => (st2, true)
    | (st2, false) =>
      match drop_move data st2 with
      | (st3, true) => (st3, true)
      | (st3, false) =>
        match open_move data st3 with
        | (st4, true) => (st4, true)
        | (st4, false) => (st4, false)

/-- The `while improving and iteration < max_iterations` loop of
`local_search`; the fuel argument is the remaining iteration budget. -/
def localSearchAux (data : ProblemData) : Nat → SolverState → SolverState
  | 0, st => st
  | fuel + 1, st =>
    match localSearchPass data st with
    | (st', true) => localSearchAux data fuel st'
    | (st', false) => st'

/-- `HeuristicSolver.local_search`: final state and its total cost. -/
def local_search (data : ProblemData) (max_iterations : Nat)
    (st : SolverState) : SolverState × Option ℚ :=
  let st' := localSearchAux data max_iterations st
  (st', calculate_total_cost data st'.assignment)

/-- Costs observed at successive commit points of a `local_search` run. -/
def localSearchTrace (data : ProblemData) : Nat → SolverState → List (Option ℚ)
  | 0, _ => []
  | fuel + 1, st =>
    match localSearchPass data st with
    | (st', true) =>
      calculate_total_cost data st'.assignment :: localSearchTrace data fuel st'
    | (_, false) => []

/-! ### Definitions used only by theorem statements -/

/-- The resource sizing exactly as the specification words it (claim C1):
`(0,0)` on nonpositive demand; else `robots = ceil(d / denom)`,
`humans = ceil(alpha * robots)`; if `robots + humans` falls short of
`ceil(U_min * capacity)` the robots are increased by exactly the
shortfall and the humans recomputed; INFEASIBLE iff the final pair
exceeds the capacity, else that pair. -/
def specResourceMix (data : ProblemData) (total_demand : ℚ) (i : Nat) :
    Option (ℤ × ℤ) :=
  if total_demand ≤ 0 then some (0, 0)
  else
    let denom := data.E_robot + data.alpha * data.E_human
    let robots := ⌈total_demand / denom⌉
    let humans := ⌈data.alpha * (robots : ℚ)⌉
    let minRes := ⌈data.U_min * data.CAP_i.getD i 0⌉
    let shortfall := minRes - (robots + humans)
    let robots2 := if robots + humans < minRes then robots + shortfall else robots
    let humans2 :=
      if robots + humans < minRes then ⌈data.alpha * ((robots + shortfall : ℤ) : ℚ)⌉
      else humans
    if data.CAP_i.getD i 0 < (robots2 : ℚ) + (humans2 : ℚ) then none
    else some (robots2, humans2)

/-- The cost contribution of one facility under the specification's
description of `calculate_total_cost`: facilities with positive assigned
demand contribute `fixed + operational + robots * C_robot + humans *
C_human`, facilities with zero assigned demand contribute nothing (the
`none` branch is never reached on feasible solutions). -/
def facilityOpenCost (data : ProblemData) (a : List ℤ) (i : Nat) : ℚ :=
  if 0 < facilityDemand data a i then
    match calculate_resource_mix data (facilityDemand data a i) i with
    | some rh =>
      data.F_i.getD i 0 + data.O_i.getD i 0
        + ((rh.1 : ℚ) * data.C_robot + (rh.2 : ℚ) * data.C_human)
    | none => 0
  else 0

/-- The marginal cost a greedy candidate facility `i` offers for a site
`j`, as an `Option`: `none` when the facility is not SLA-eligible or its
resource sizing at the increased demand is INFEASIBLE, otherwise the
marginal cost (resource cost plus fixed + operational when closed). -/
def greedyCandCost (data : ProblemData) (st : SolverState) (j i : Nat) :
    Option ℚ :=
  if can_serve data (i : ℤ) j then
    (calculate_resource_mix data
        (facilityDemand data st.assignment i + data.D_j.getD j 0) i).map
      (greedyMarginalCost data st i)
  else none

/-- The SLA invariant over an assignment array: every assigned site is
within the SLA radius of its facility (distances read exactly as the
program reads them, i.e. with Python indexing). -/
def SlaOK (data : ProblemData) (a : List ℤ) : Prop :=
  ∀ j, j < data.num_J → a.getD j (-1) ≠ -1 →
    (pyGet data.d_ij (a.getD j (-1)) []).getD j 0 ≤ data.S_max

/-- A full pass over the four move operators finds no improving move. -/
def noImprovingMove (data : ProblemData) (st : SolverState) : Prop :=
  (shift_move data st).2 = false ∧ (swap_move data st).2 = false ∧
  (drop_move data st).2 = false ∧ (open_move data st).2 = false

/-! ### Concrete instances used by witnesses and counterexamples -/

/-- The single-facility scenario of claim C9: capacity 100,
`U_min = 0.30`, efficiencies `(3.0, 1.0)`, `alpha = 1/5` and the unit
costs of the generated problem instances. -/
def scenario9 : ProblemData :=
  { num_I := 1, num_J := 1, F_i := [20000], O_i := [5000], CAP_i := [100]
  , D_j := [60], d_ij := [[0]], S_max := 15, U_min := 3/10, alpha := 1/5
  , E_robot := 3, E_human := 1, C_robot := 800, C_human := 3000 }

/-- Tiny instance with three facilities and one unit-demand site; the
facility fixed costs strictly decrease with the index, so local search
improves by two successive shift moves. -/
def cexData : ProblemData :=
  { num_I := 3, num_J := 1, F_i := [30, 20, 10], O_i := [0, 0, 0]
  , CAP_i := [10, 10, 10], D_j := [1]
  , d_ij := [[0], [0], [0]], S_max := 1, U_min := 0, alpha := 0
  , E_robot := 1, E_human := 1, C_robot := 1, C_human := 1 }

/-- Start state for `cexData`: the one site served by facility 0. -/
def cexStart : SolverState :=
  { y := [1, 0, 0], assignment := [0], resources := [(0, 0), (0, 0), (0, 0)] }

/-- Two facilities, one site, the site unassigned: exercises the Python
negative-indexing read in `_open_move` (claim C10). -/
def unassignedData : ProblemData :=
  { num_I := 2, num_J := 1, F_i := [7, 7], O_i := [0, 0]
  , CAP_i := [10, 10], D_j := [1]
  , d_ij := [[2], [9]], S_max := 20, U_min := 0, alpha := 0
  , E_robot := 1, E_human := 1, C_robot := 1, C_human := 1 }

/-! ### Generic helper lemmas -/

section
set_option allowUnsafeReducibility true
attribute [local semireducible] Rat.mul Rat.inv Rat.add Rat.sub Rat.neg

theorem ltInf_none_left (b : Option ℚ) : ltInf none b = false := rfl

theorem ltInf_some_iff (x : ℚ) (b : Option ℚ) :
    ltInf (some x) b = true ↔ b = none ∨ ∃ y, b = some y ∧ x < y := by
  cases b with
  | none => simp [ltInf]
  | some y => simp [ltInf]

theorem ltInf_isSome (a b : Option ℚ) (h : ltInf a b = true) : ∃ x, a = some x := by
  cases a with
  | none => simp [ltInf] at h
  | some x => exact ⟨x, rfl⟩

theorem getD_set_self (l : List α) (j : Nat) (v d : α) (h : j < l.length) :
    (l.set j v).getD j d = v := by
  simp [List.getD_eq_getElem?_getD, List.getElem?_set_self h]

theorem getD_set_ne (l : List α) (j j' : Nat) (v d : α) (h : j ≠ j') :
    (l.set j v).getD j' d = l.getD j' d := by
  simp [List.getD_eq_getElem?_getD, List.getElem?_set_ne h]

theorem set_getD_self (l : List α) (j : Nat) (d : α) :
    l.set j (l.getD j d) = l := by
  apply List.ext_getElem?
  intro n
  rw [List.getElem?_set]
  by_cases hj : j = n
  · subst hj
    by_cases hlt : j < l.length
    · simp [List.getD_eq_getElem?_getD, List.getElem?_eq_getElem hlt, hlt]
    · simp [List.getElem?_eq_none (Nat.le_of_not_lt hlt), Nat.le_of_not_lt hlt]
  · simp [hj]

theorem set_set_getD (l : List α) (j : Nat) (v d : α) :
    (l.set j v).set j (l.getD j d) = l := by
  rw [List.set_set, set_getD_self]

/-- C1: `calculate_resource_mix` behaves exactly as the specification
describes: `(0, 0)` for `total_demand <= 0`; otherwise
`robots = ceil(total_demand / (E_robot + alpha * E_human))` and
`humans = ceil(alpha * robots)`, with robots raised by exactly the
shortfall `ceil(U_min * capacity) - (robots + humans)` (and humans
recomputed) when minimum utilization is not met, and INFEASIBLE (`none`)
returned iff the final pair exceeds the capacity. Being a plain function
of `data`, it reads no mutable solver state. -/
theorem resource_mix_matches_spec (data : ProblemData) (d : ℚ) (i : Nat) :
    calculate_resource_mix data d i = specResourceMix data d i := by
  unfold calculate_resource_mix specResourceMix
  by_cases h0 : d ≤ 0
  · simp [h0]
  · simp only [if_neg h0]
    by_cases hc :
        ⌈d / (data.E_robot + data.alpha * data.E_human)⌉ +
            ⌈data.alpha * ((⌈d / (data.E_robot + data.alpha * data.E_human)⌉ : ℤ) : ℚ)⌉ <
          ⌈data.U_min * data.CAP_i.getD i 0⌉ <;>
      simp only [hc, if_true, if_false, gt_iff_lt]

/-- C9: on the concrete single-facility scenario (capacity 100,
`U_min = 0.30`, efficiencies 3.0 / 1.0, `alpha = 1/5`, demand 60) the
sizing first computes `robots = ceil(60 / 3.2) = 19` and
`humans = ceil(0.2 * 19) = 4`, the minimum-utilization correction fires
because `19 + 4 = 23 < ceil(0.30 * 100) = 30`, and the returned pair
satisfies the demand, utilization and capacity constraints. -/
theorem resource_mix_concrete_scenario :
    (⌈(60 : ℚ) / (scenario9.E_robot + scenario9.alpha * scenario9.E_human)⌉ = 19 ∧
      ⌈scenario9.alpha * ((19 : ℤ) : ℚ)⌉ = 4) ∧
    (⌈scenario9.U_min * scenario9.CAP_i.getD 0 0⌉ = 30 ∧ (19 : ℤ) + 4 < 30) ∧
    ∃ R H : ℤ, calculate_resource_mix scenario9 60 0 = some (R, H) ∧
      (60 : ℚ) ≤ 3 * (R : ℚ) + 1 * (H : ℚ) ∧ (30 : ℤ) ≤ R + H ∧ R + H ≤ 100 := by
  refine ⟨⟨by decide, by decide⟩, ⟨by decide, by decide⟩, 26, 6, by decide, ?_, ?_, ?_⟩ <;> decide

/-! ### C2: total-cost evaluator -/

theorem costFold_none_absorb (data : ProblemData) (a : List ℤ) (l : List Nat) :
    l.foldl (costFoldStep data a) none = none := by
  induction l with
  | nil => rfl
  | cons i l ih => simpa [costFoldStep] using ih

theorem costFold_char (data : ProblemData) (a : List ℤ) (l : List Nat) :
    ∀ c0 : ℚ,
      (l.foldl (costFoldStep data a) (some c0) = none ↔
        ∃ i ∈ l, 0 < facilityDemand data a i ∧
          calculate_resource_mix data (facilityDemand data a i) i = none) ∧
      (∀ c, l.foldl (costFoldStep data a) (some c0) = some c →
        c = c0 + (l.map (facilityOpenCost data a)).sum) := by
  induction l with
  | nil =>
    intro c0
    constructor
    · simp
    · intro c h
      simp at h
      simp [h]
  | cons i l ih =>
    intro c0
    rw [List.foldl_cons]
    by_cases hd : 0 < facilityDemand data a i
    · cases hm : calculate_resource_mix data (facilityDemand data a i) i with
      | none =>
        simp only [costFoldStep, hd, if_true, hm]
        constructor
        · simp [costFold_none_absorb]
          exact Or.inl ⟨hd, hm⟩
        · intro c h
          rw [costFold_none_absorb] at h
          exact absurd h (by simp)
      | some rh =>
        obtain ⟨r, h'⟩ := rh
        simp only [costFoldStep, hd, if_true, hm]
        refine ⟨?_, ?_⟩
        · rw [(ih _).1]
          constructor
          · rintro ⟨i', hi', hpos, hmix⟩
            exact ⟨i', List.mem_cons_of_mem _ hi', hpos, hmix⟩
          · rintro ⟨i', hi', hpos, hmix⟩
            rcases List.mem_cons.1 hi' with h | h
            · subst h
              rw [hm] at hmix
              exact absurd hmix (by simp)
            · exact ⟨i', h, hpos, hmix⟩
        · intro c h
          have := (ih _).2 c h
          rw [this, List.map_cons, List.sum_cons]
          have hfoc : facilityOpenCost data a i
              = data.F_i.getD i 0 + data.O_i.getD i 0
                + ((r : ℚ) * data.C_robot + (h' : ℚ) * data.C_human) := by
            simp [facilityOpenCost, hd, hm]
          rw [hfoc]
          ring
    · simp only [costFoldStep, hd, if_false]
      refine ⟨?_, ?_⟩
      · rw [(ih _).1]
        constructor
        · rintro ⟨i', hi', hpos, hmix⟩
          exact ⟨i', List.mem_cons_of_mem _ hi', hpos, hmix⟩
        · rintro ⟨i', hi', hpos, hmix⟩
          rcases List.mem_cons.1 hi' with h | h
          · subst h; exact absurd hpos hd
          · exact ⟨i', h, hpos, hmix⟩
      · intro c h
        have := (ih _).2 c h
        rw [this, List.map_cons, List.sum_cons]
        have hfoc : facilityOpenCost data a i = 0 := by
          simp [facilityOpenCost, hd]
        rw [hfoc]
        ring

/-- C2: `calculate_total_cost` returns `+infinity` (`none`) iff some
demand site is unassigned (`-1`) or some facility with positive assigned
demand has an INFEASIBLE sizing; otherwise it returns the sum over
exactly the positive-demand facilities of fixed + operational cost plus
`robots * C_robot + humans * C_human`, zero-demand facilities
contributing nothing (see `facilityOpenCost`). -/
theorem total_cost_matches_spec (data : ProblemData) (a : List ℤ) :
    (calculate_total_cost data a = none ↔
      (∃ j, j < data.num_J ∧ a.getD j (-1) = -1) ∨
      (∃ i, i < data.num_I ∧ 0 < facilityDemand data a i ∧
        calculate_resource_mix data (facilityDemand data a i) i = none)) ∧
    (∀ c, calculate_total_cost data a = some c →
      c = ((List.range data.num_I).map (facilityOpenCost data a)).sum) := by
  unfold calculate_total_cost
  by_cases hun : ((List.range data.num_J).any (fun j => a.getD j (-1) = -1)) = true
  · rw [if_pos hun]
    constructor
    · simp only [true_iff]
      left
      rcases List.any_eq_true.1 hun with ⟨j, hj, hdec⟩
      exact ⟨j, List.mem_range.1 hj, by simpa using hdec⟩
    · intro c h
      exact absurd h (by simp)
  · rw [if_neg hun]
    have hchar := costFold_char data a (List.range data.num_I) 0
    constructor
    · rw [hchar.1]
      constructor
      · rintro ⟨i, hi, hpos, hmix⟩
        exact Or.inr ⟨i, List.mem_range.1 hi, hpos, hmix⟩
      · rintro (⟨j, hj, hneg⟩ | ⟨i, hi, hpos, hmix⟩)
        · exact absurd (List.any_eq_true.2 ⟨j, List.mem_range.2 hj, by simpa using hneg⟩) hun
        · exact ⟨i, List.mem_range.2 hi, hpos, hmix⟩
    · intro c h
      have := hchar.2 c h
      simpa using this

/-! ### Move atomicity helpers -/

theorem update_facility_state_assignment (data : ProblemData) (st : SolverState) :
    (update_facility_state data st).assignment = st.assignment := by
  unfold update_facility_state
  generalize List.range data.num_I = l
  induction l generalizing st with
  | nil => rfl
  | cons i l ih =>
    rw [List.foldl_cons]
    rw [ih]
    dsimp only
    split
    · split <;> rfl
    · rfl

theorem shiftTryK_ofFalse (data : ProblemData) (cc : Option ℚ) (j : Nat)
    (original_i : ℤ) :
    ∀ (ks : List Nat) (st : SolverState),
      st.assignment.getD j (-1) = original_i →
      (shiftTryK data cc j original_i st ks).2 = false →
      (shiftTryK data cc j original_i st ks).1 = st := by
  intro ks
  induction ks with
  | nil => intro st _ _; rfl
  | cons k ks ih =>
    intro st hor hfalse
    rw [shiftTryK] at hfalse ⊢
    by_cases hk : (k : ℤ) = original_i
    · rw [if_pos hk] at hfalse ⊢
      exact ih st hor hfalse
    · rw [if_neg hk] at hfalse ⊢
      by_cases hserve : can_serve data (k : ℤ) j = true
      · simp only [hserve, not_true, if_false] at hfalse ⊢
        set st1 : SolverState :=
          { st with assignment := st.assignment.set j (k : ℤ) } with hst1
        by_cases himp :
            ltInf (calculate_total_cost data st1.assignment) cc = true
        · rw [if_pos himp] at hfalse
          simp at hfalse
        · rw [if_neg himp] at hfalse ⊢
          have hrestore :
              ({ st1 with assignment := st1.assignment.set j original_i }
                : SolverState) = st := by
            show ({ st with
              assignment := (st.assignment.set j (k : ℤ)).set j original_i }
                : SolverState) = st
            rw [List.set_set, ← hor, set_getD_self]
          rw [hrestore] at hfalse ⊢
          exact ih st hor hfalse
      · simp only [hserve, not_false_iff, if_true] at hfalse ⊢
        exact ih st hor hfalse

theorem shiftOuter_ofFalse (data : ProblemData) (cc : Option ℚ) :
    ∀ (js : List Nat) (st : SolverState),
      (shiftOuter data cc st js).2 = false →
      (shiftOuter data cc st js).1 = st := by
  intro js
  induction js with
  | nil => intro st _; rfl
  | cons j js ih =>
    intro st hfalse
    rw [shiftOuter] at hfalse ⊢
    rcases hk : shiftTryK data cc j (st.assignment.getD j (-1)) st
        (List.range data.num_I) with ⟨st', b⟩
    cases b with
    | true => rw [hk] at hfalse; simp at hfalse
    | false =>
      have hst' : st' = st := by
        have h2 := shiftTryK_ofFalse data cc j (st.assignment.getD j (-1))
          (List.range data.num_I) st rfl (by rw [hk])
        rw [hk] at h2
        exact h2
      rw [hk] at hfalse
      dsimp only at hfalse ⊢
      rw [hst'] at hfalse ⊢
      exact ih st hfalse

theorem shift_move_ofFalse (data : ProblemData) (st : SolverState)
    (h : (shift_move data st).2 = false) : (shift_move data st).1 = st :=
  shiftOuter_ofFalse data _ _ st h

theorem shiftTryK_ofTrue (data : ProblemData) (cc : Option ℚ) (j : Nat)
    (original_i : ℤ) :
    ∀ (ks : List Nat) (st st' : SolverState),
      shiftTryK data cc j original_i st ks = (st', true) →
      ltInf (calculate_total_cost data st'.assignment) cc = true := by
  intro ks
  induction ks with
  | nil => intro st st' h; simp [shiftTryK] at h
  | cons k ks ih =>
    intro st st' h
    rw [shiftTryK] at h
    by_cases hk : (k : ℤ) = original_i
    · rw [if_pos hk] at h; exact ih st st' h
    · rw [if_neg hk] at h
      by_cases hserve : can_serve data (k : ℤ) j = true
      · simp only [hserve, not_true, if_false] at h
        set st1 : SolverState :=
          { st with assignment := st.assignment.set j (k : ℤ) } with hst1
        by_cases himp :
            ltInf (calculate_total_cost data st1.assignment) cc = true
        · rw [if_pos himp] at h
          have hst' : st' = update_facility_state data st1 := by
            have := congrArg Prod.fst h
            exact this.symm
          rw [hst', update_facility_state_assignment]
          exact himp
        · rw [if_neg himp] at h
          exact ih _ st' h
      · simp only [hserve, not_false_iff, if_true] at h
        exact ih st st' h

theorem shiftOuter_ofTrue (data : ProblemData) (cc : Option ℚ) :
    ∀ (js : List Nat) (st st' : SolverState),
      shiftOuter data cc st js = (st', true) →
      ltInf (calculate_total_cost data st'.assignment) cc = true := by
  intro js
  induction js with
  | nil => intro st st' h; simp [shiftOuter] at h
  | cons j js ih =>
    intro st st' h
    rw [shiftOuter] at h
    rcases hk : shiftTryK data cc j (st.assignment.getD j (-1)) st
        (List.range data.num_I) with ⟨stk, b⟩
    rw [hk] at h
    cases b with
    | true =>
      dsimp only at h
      have : stk = st' := congrArg Prod.fst h
      exact this ▸ shiftTryK_ofTrue data cc j _ _ st stk hk
    | false =>
      dsimp only at h
      exact ih stk st' h

theorem shift_move_ofTrue (data : ProblemData) (st st' : SolverState)
    (h : shift_move data st = (st', true)) :
    ltInf (calculate_total_cost data st'.assignment)
      (calculate_total_cost data st.assignment) = true :=
  shiftOuter_ofTrue data _ _ st st' h

theorem swapTryJ2_ofFalse (data : ProblemData) (cc : Option ℚ) (j1 : Nat)
    (i1 : ℤ) :
    ∀ (rest : List Nat) (st : SolverState),
      st.assignment.getD j1 (-1) = i1 →
      (∀ j2 ∈ rest, j1 ≠ j2) →
      (swapTryJ2 data cc j1 i1 st rest).2 = false →
      (swapTryJ2 data cc j1 i1 st rest).1 = st := by
  intro rest
  induction rest with
  | nil => intro st _ _ _; rfl
  | cons j2 rest ih =>
    intro st hi1 hne hfalse
    have hj12 : j1 ≠ j2 := hne j2 (List.mem_cons_self _ _)
    have hner : ∀ j ∈ rest, j1 ≠ j :=
      fun j hj => hne j (List.mem_cons_of_mem _ hj)
    rw [swapTryJ2] at hfalse ⊢
    by_cases heq : i1 = st.assignment.getD j2 (-1)
    · rw [if_pos heq] at hfalse ⊢
      exact ih st hi1 hner hfalse
    · rw [if_neg heq] at hfalse ⊢
      by_cases hserve : can_serve data (st.assignment.getD j2 (-1)) j1 = true ∧
          can_serve data i1 j2 = true
      · rw [if_neg (not_not_intro hserve)] at hfalse ⊢
        set i2 := st.assignment.getD j2 (-1) with hi2
        set st1 : SolverState :=
          { st with assignment := (st.assignment.set j1 i2).set j2 i1 } with hst1
        by_cases himp :
            ltInf (calculate_total_cost data st1.assignment) cc = true
        · rw [if_pos himp] at hfalse
          simp at hfalse
        · rw [if_neg himp] at hfalse ⊢
          have hrestore :
              ({ st1 with assignment := (st1.assignment.set j1 i1).set j2 i2 }
                : SolverState) = st := by
            show ({ st with assignment :=
                ((((st.assignment.set j1 i2).set j2 i1).set j1 i1).set j2 i2) }
              : SolverState) = st
            rw [List.set_comm _ _ _ (Ne.symm hj12), List.set_set,
              List.set_set, ← hi1, set_getD_self, hi2, set_getD_self]
          rw [hrestore] at hfalse ⊢
          exact ih st hi1 hner hfalse
      · rw [if_pos hserve] at hfalse ⊢
        exact ih st hi1 hner hfalse

theorem swapTryJ2_ofTrue (data : ProblemData) (cc : Option ℚ) (j1 : Nat)
    (i1 : ℤ) :
    ∀ (rest : List Nat) (st st' : SolverState),
      swapTryJ2 data cc j1 i1 st rest = (st', true) →
      ltInf (calculate_total_cost data st'.assignment) cc = true := by
  intro rest
  induction rest with
  | nil => intro st st' h; simp [swapTryJ2] at h
  | cons j2 rest ih =>
    intro st st' h
    rw [swapTryJ2] at h
    by_cases heq : i1 = st.assignment.getD j2 (-1)
    · rw [if_pos heq] at h; exact ih st st' h
    · rw [if_neg heq] at h
      by_cases hserve : can_serve data (st.assignment.getD j2 (-1)) j1 = true ∧
          can_serve data i1 j2 = true
      · rw [if_neg (not_not_intro hserve)] at h
        set st1 : SolverState :=
          { st with assignment :=
              (st.assignment.set j1 (st.assignment.getD j2 (-1))).set j2 i1 }
          with hst1
        by_cases himp :
            ltInf (calculate_total_cost data st1.assignment) cc = true
        · rw [if_pos himp] at h
          have hst' : st' = update_facility_state data st1 :=
            (congrArg Prod.fst h).symm
          rw [hst', update_facility_state_assignment]
          exact himp
        · rw [if_neg himp] at h
          exact ih _ st' h
      · rw [if_pos hserve] at h
        exact ih st st' h

theorem swapOuter_ofFalse (data : ProblemData) (cc : Option ℚ) :
    ∀ (js : List Nat) (st : SolverState),
      (swapOuter data cc st js).2 = false →
      (swapOuter data cc st js).1 = st := by
  intro js
  induction js with
  | nil => intro st _; rfl
  | cons j1 js ih =>
    intro st hfalse
    rw [swapOuter] at hfalse ⊢
    rcases hk : swapTryJ2 data cc j1 (st.assignment.getD j1 (-1)) st
        (List.range' (j1 + 1) (data.num_J - (j1 + 1))) with ⟨stk, b⟩
    cases b with
    | true => rw [hk] at hfalse; simp at hfalse
    | false =>
      have hstk : stk = st := by
        have h2 := swapTryJ2_ofFalse data cc j1 (st.assignment.getD j1 (-1))
          (List.range' (j1 + 1) (data.num_J - (j1 + 1))) st rfl
          (fun j hj => by
            have := (List.mem_range'_1.1 hj).1
            omega)
          (by rw [hk])
        rw [hk] at h2
        exact h2
      rw [hk] at hfalse
      dsimp only at hfalse ⊢
      rw [hstk] at hfalse ⊢
      exact ih st hfalse

theorem swapOuter_ofTrue (data : ProblemData) (cc : Option ℚ) :
    ∀ (js : List Nat) (st st' : SolverState),
      swapOuter data cc st js = (st', true) →
      ltInf (calculate_total_cost data st'.assignment) cc = true := by
  intro js
  induction js with
  | nil => intro st st' h; simp [swapOuter] at h
  | cons j1 js ih =>
    intro st st' h
    rw [swapOuter] at h
    rcases hk : swapTryJ2 data cc j1 (st.assignment.getD j1 (-1)) st
        (List.range' (j1 + 1) (data.num_J - (j1 + 1))) with ⟨stk, b⟩
    rw [hk] at h
    cases b with
    | true =>
      dsimp only at h
      have : stk = st' := congrArg Prod.fst h
      exact this ▸ swapTryJ2_ofTrue data cc j1 _ _ st stk hk
    | false =>
      dsimp only at h
      exact ih stk st' h

theorem swap_move_ofFalse (data : ProblemData) (st : SolverState)
    (h : (swap_move data st).2 = false) : (swap_move data st).1 = st :=
  swapOuter_ofFalse data _ _ st h

theorem swap_move_ofTrue (data : ProblemData) (st st' : SolverState)
    (h : swap_move data st = (st', true)) :
    ltInf (calculate_total_cost data st'.assignment)
      (calculate_total_cost data st.assignment) = true :=
  swapOuter_ofTrue data _ _ st st' h

theorem revertSites_restore (a : List ℤ) :
    ∀ (js : List Nat) (a' : List ℤ),
      a'.length = a.length →
      (∀ j, j ∉ js → a'[j]? = a[j]?) →
      revertSites (js.map fun j => (j, a.getD j (-1))) a' = a := by
  intro js
  induction js with
  | nil =>
    intro a' _ hout
    exact List.ext_getElem? fun n => hout n (List.not_mem_nil n)
  | cons j js ih =>
    intro a' hlen hout
    rw [List.map_cons]
    show revertSites _ (a'.set j (a.getD j (-1))) = a
    apply ih
    · rw [List.length_set]; exact hlen
    · intro n hn
      by_cases hnj : j = n
      · subst hnj
        by_cases hlt : j < a.length
        · rw [List.getElem?_set_self (hlen ▸ hlt : j < a'.length),
            List.getD_eq_getElem?_getD, List.getElem?_eq_getElem hlt]
          rfl
        · rw [List.set_eq_of_length_le
            (by omega : a'.length ≤ j)]
          rw [List.getElem?_eq_none (by omega : a'.length ≤ j),
            List.getElem?_eq_none (by omega : a.length ≤ j)]
      · rw [List.getElem?_set_ne hnj]
        exact hout n (fun hmem =>
          (List.mem_cons.1 hmem).elim (fun he => hnj he.symm) hn)

theorem dropAssignSites_outside (data : ProblemData) (openFs : List Nat)
    (drop_i : Nat) :
    ∀ (sites : List Nat) (a : List ℤ),
      (dropAssignSites data openFs drop_i sites a).1.length = a.length ∧
      ∀ n, n ∉ sites →
        (dropAssignSites data openFs drop_i sites a).1[n]? = a[n]? := by
  intro sites
  induction sites with
  | nil => intro a; exact ⟨rfl, fun n _ => rfl⟩
  | cons j rest ih =>
    intro a
    rw [dropAssignSites]
    by_cases hb : dropFindAlt data a openFs drop_i j = -1
    · rw [if_pos hb]; exact ⟨rfl, fun n _ => rfl⟩
    · rw [if_neg hb]
      refine ⟨?_, ?_⟩
      · rw [(ih _).1, List.length_set]
      · intro n hn
        rw [(ih _).2 n (fun h => hn (List.mem_cons_of_mem _ h))]
        exact List.getElem?_set_ne
          (fun h => hn (by rw [← h]; exact List.mem_cons_self j rest))

theorem dropLoop_ofFalse (data : ProblemData) (cc : Option ℚ)
    (openFs : List Nat) :
    ∀ (fs : List Nat) (st : SolverState),
      (dropLoop data cc openFs st fs).2 = false →
      (dropLoop data cc openFs st fs).1 = st := by
  intro fs
  induction fs with
  | nil => intro st _; rfl
  | cons drop_i rest ih =>
    intro st hfalse
    rw [dropLoop] at hfalse ⊢
    dsimp only at hfalse ⊢
    by_cases hempty :
        (facilitySites data st.assignment drop_i).isEmpty = true
    · rw [if_pos hempty] at hfalse ⊢
      exact ih st hfalse
    · rw [if_neg hempty] at hfalse ⊢
      have hrevert :
          revertSites ((facilitySites data st.assignment drop_i).map
              fun j => (j, st.assignment.getD j (-1)))
            (dropAssignSites data openFs drop_i
              (facilitySites data st.assignment drop_i) st.assignment).1
          = st.assignment :=
        revertSites_restore st.assignment _ _
          (dropAssignSites_outside data openFs drop_i _ _).1
          (fun n hn => (dropAssignSites_outside data openFs drop_i _ _).2 n hn)
      by_cases hok : (dropAssignSites data openFs drop_i
          (facilitySites data st.assignment drop_i) st.assignment).2 = true
      · rw [if_pos hok] at hfalse ⊢
        by_cases himp : ltInf (calculate_total_cost data
            (dropAssignSites data openFs drop_i
              (facilitySites data st.assignment drop_i) st.assignment).1) cc
            = true
        · rw [if_pos himp] at hfalse
          simp at hfalse
        · rw [if_neg himp] at hfalse ⊢
          rw [hrevert] at hfalse ⊢
          exact ih st hfalse
      · rw [if_neg hok] at hfalse ⊢
        rw [hrevert] at hfalse ⊢
        exact ih st hfalse

theorem dropLoop_ofTrue (data : ProblemData) (cc : Option ℚ)
    (openFs : List Nat) :
    ∀ (fs : List Nat) (st st' : SolverState),
      dropLoop data cc openFs st fs = (st', true) →
      ltInf (calculate_total_cost data st'.assignment) cc = true := by
  intro fs
  induction fs with
  | nil => intro st st' h; simp [dropLoop] at h
  | cons drop_i rest ih =>
    intro st st' h
    rw [dropLoop] at h
    dsimp only at h
    by_cases hempty :
        (facilitySites data st.assignment drop_i).isEmpty = true
    · rw [if_pos hempty] at h
      exact ih st st' h
    · rw [if_neg hempty] at h
      by_cases hok : (dropAssignSites data openFs drop_i
          (facilitySites data st.assignment drop_i) st.assignment).2 = true
      · rw [if_pos hok] at h
        by_cases himp : ltInf (calculate_total_cost data
            (dropAssignSites data openFs drop_i
              (facilitySites data st.assignment drop_i) st.assignment).1) cc
            = true
        · rw [if_pos himp] at h
          have hst' : st' = update_facility_state data
              { st with assignment := (dropAssignSites data openFs drop_i
                (facilitySites data st.assignment drop_i) st.assignment).1 } :=
            (congrArg Prod.fst h).symm
          rw [hst', update_facility_state_assignment]
          exact himp
        · rw [if_neg himp] at h
          exact ih _ st' h
      · rw [if_neg hok] at h
        exact ih _ st' h

theorem drop_move_ofFalse (data : ProblemData) (st : SolverState)
    (h : (drop_move data st).2 = false) : (drop_move data st).1 = st :=
  dropLoop_ofFalse data _ _ _ st h

theorem drop_move_ofTrue (data : ProblemData) (st st' : SolverState)
    (h : drop_move data st = (st', true)) :
    ltInf (calculate_total_cost data st'.assignment)
      (calculate_total_cost data st.assignment) = true :=
  dropLoop_ofTrue data _ _ _ st st' h

theorem foldlSet_outside (v : ℤ) :
    ∀ (ps : List (Nat × ℚ)) (a : List ℤ),
      (ps.foldl (fun a p => a.set p.1 v) a).length = a.length ∧
      ∀ n, (∀ p ∈ ps, p.1 ≠ n) →
        (ps.foldl (fun a p => a.set p.1 v) a)[n]? = a[n]? := by
  intro ps
  induction ps with
  | nil => intro a; exact ⟨rfl, fun n _ => rfl⟩
  | cons p ps ih =>
    intro a
    rw [List.foldl_cons]
    refine ⟨?_, ?_⟩
    · rw [(ih _).1, List.length_set]
    · intro n hn
      rw [(ih _).2 n (fun q hq => hn q (List.mem_cons_of_mem _ hq))]
      exact List.getElem?_set_ne (hn p (List.mem_cons_self p ps))

theorem openLoop_ofFalse (data : ProblemData) (cc : Option ℚ) :
    ∀ (fs : List Nat) (st : SolverState),
      (openLoop data cc st fs).2 = false →
      (openLoop data cc st fs).1 = st := by
  intro fs
  induction fs with
  | nil => intro st _; rfl
  | cons new_i rest ih =>
    intro st hfalse
    rw [openLoop] at hfalse ⊢
    dsimp only at hfalse ⊢
    by_cases hempty :
        ((List.range data.num_J).filter
          (fun j => can_serve data (new_i : ℤ) j)).isEmpty = true
    · rw [if_pos hempty] at hfalse ⊢
      exact ih st hfalse
    · rw [if_neg hempty] at hfalse ⊢
      by_cases hlen2 : 2 ≤ (sortSavings (((List.range data.num_J).filter
          (fun j => can_serve data (new_i : ℤ) j)).filterMap
            (openSiteSaving data st.assignment new_i))).length
      · rw [if_pos hlen2] at hfalse ⊢
        have hrevert :
            revertSites (((sortSavings (((List.range data.num_J).filter
                (fun j => can_serve data (new_i : ℤ) j)).filterMap
                  (openSiteSaving data st.assignment new_i))).take 10).map
                fun p => (p.1, st.assignment.getD p.1 (-1)))
              (((sortSavings (((List.range data.num_J).filter
                (fun j => can_serve data (new_i : ℤ) j)).filterMap
                  (openSiteSaving data st.assignment new_i))).take 10).foldl
                (fun a p => a.set p.1 (new_i : ℤ)) st.assignment)
            = st.assignment := by
          have hmm : (((sortSavings (((List.range data.num_J).filter
                (fun j => can_serve data (new_i : ℤ) j)).filterMap
                  (openSiteSaving data st.assignment new_i))).take 10).map
                fun p => (p.1, st.assignment.getD p.1 (-1)))
              = (((sortSavings (((List.range data.num_J).filter
                (fun j => can_serve data (new_i : ℤ) j)).filterMap
                  (openSiteSaving data st.assignment new_i))).take 10).map
                    Prod.fst).map
                  (fun j => (j, st.assignment.getD j (-1))) := by
            rw [List.map_map]
            rfl
          rw [hmm]
          apply revertSites_restore
          · exact (foldlSet_outside (new_i : ℤ) _ st.assignment).1
          · intro n hn
            refine (foldlSet_outside (new_i : ℤ) _ st.assignment).2 n ?_
            intro p hp hpn
            exact hn (List.mem_map.2 ⟨p, hp, hpn⟩)
        by_cases himp : ltInf (calculate_total_cost data
            (((sortSavings (((List.range data.num_J).filter
              (fun j => can_serve data (new_i : ℤ) j)).filterMap
                (openSiteSaving data st.assignment new_i))).take 10).foldl
              (fun a p => a.set p.1 (new_i : ℤ)) st.assignment)) cc = true
        · rw [if_pos himp] at hfalse
          simp at hfalse
        · rw [if_neg himp] at hfalse ⊢
          rw [hrevert] at hfalse ⊢
          exact ih st hfalse
      · rw [if_neg hlen2] at hfalse ⊢
        exact ih st hfalse

theorem openLoop_ofTrue (data : ProblemData) (cc : Option ℚ) :
    ∀ (fs : List Nat) (st st' : SolverState),
      openLoop data cc st fs = (st', true) →
      ltInf (calculate_total_cost data st'.assignment) cc = true := by
  intro fs
  induction fs with
  | nil => intro st st' h; simp [openLoop] at h
  | cons new_i rest ih =>
    intro st st' h
    rw [openLoop] at h
    dsimp only at h
    by_cases hempty :
        ((List.range data.num_J).filter
          (fun j => can_serve data (new_i : ℤ) j)).isEmpty = true
    · rw [if_pos hempty] at h
      exact ih st st' h
    · rw [if_neg hempty] at h
      by_cases hlen2 : 2 ≤ (sortSavings (((List.range data.num_J).filter
          (fun j => can_serve data (new_i : ℤ) j)).filterMap
            (openSiteSaving data st.assignment new_i))).length
      · rw [if_pos hlen2] at h
        by_cases himp : ltInf (calculate_total_cost data
            (((sortSavings (((List.range data.num_J).filter
              (fun j => can_serve data (new_i : ℤ) j)).filterMap
                (openSiteSaving data st.assignment new_i))).take 10).foldl
              (fun a p => a.set p.1 (new_i : ℤ)) st.assignment)) cc = true
        · rw [if_pos himp] at h
          have hst' : st' = update_facility_state data
              { st with assignment :=
                (((sortSavings (((List.range data.num_J).filter
                  (fun j => can_serve data (new_i : ℤ) j)).filterMap
                    (openSiteSaving data st.assignment new_i))).take 10).foldl
                  (fun a p => a.set p.1 (new_i : ℤ)) st.assignment) } :=
            (congrArg Prod.fst h).symm
          rw [hst', update_facility_state_assignment]
          exact himp
        · rw [if_neg himp] at h
          exact ih _ st' h
      · rw [if_neg hlen2] at h
        exact ih st st' h

theorem open_move_ofFalse (data : ProblemData) (st : SolverState)
    (h : (open_move data st).2 = false) : (open_move data st).1 = st :=
  openLoop_ofFalse data _ _ st h

theorem open_move_ofTrue (data : ProblemData) (st st' : SolverState)
    (h : open_move data st = (st', true)) :
    ltInf (calculate_total_cost data st'.assignment)
      (calculate_total_cost data st.assignment) = true :=
  openLoop_ofTrue data _ _ st st' h

theorem localSearchPass_ofFalse (data : ProblemData) (st : SolverState)
    (hfalse : (localSearchPass data st).2 = false) :
    (localSearchPass data st).1 = st ∧ noImprovingMove data st := by
  unfold localSearchPass at hfalse ⊢
  rcases h1 : shift_move data st with ⟨st1, b1⟩
  rw [h1] at hfalse
  cases b1 with
  | true => simp at hfalse
  | false =>
    have e1 : st1 = st := by
      have h' := shift_move_ofFalse data st (by rw [h1])
      rw [h1] at h'
      exact h'
    dsimp only at hfalse ⊢
    rcases h2 : swap_move data st1 with ⟨st2, b2⟩
    rw [h2] at hfalse
    cases b2 with
    | true => simp at hfalse
    | false =>
      have e2 : st2 = st1 := by
        have h' := swap_move_ofFalse data st1 (by rw [h2])
        rw [h2] at h'
        exact h'
      dsimp only at hfalse ⊢
      rcases h3 : drop_move data st2 with ⟨st3, b3⟩
      rw [h3] at hfalse
      cases b3 with
      | true => simp at hfalse
      | false =>
        have e3 : st3 = st2 := by
          have h' := drop_move_ofFalse data st2 (by rw [h3])
          rw [h3] at h'
          exact h'
        dsimp only at hfalse ⊢
        rcases h4 : open_move data st3 with ⟨st4, b4⟩
        rw [h4] at hfalse
        cases b4 with
        | true => simp at hfalse
        | false =>
          dsimp only
          have e4 : st4 = st3 := by
            have h' := open_move_ofFalse data st3 (by rw [h4])
            rw [h4] at h'
            exact h'
          refine ⟨by rw [e4, e3, e2, e1], ?_, ?_, ?_, ?_⟩
          · rw [h1]
          · rw [← e1, h2]
          · rw [← e1, ← e2, h3]
          · rw [← e1, ← e2, ← e3, h4]

theorem localSearchPass_ofTrue (data : ProblemData) (st st' : SolverState)
    (h : localSearchPass data st = (st', true)) :
    ltInf (calculate_total_cost data st'.assignment)
      (calculate_total_cost data st.assignment) = true := by
  unfold localSearchPass at h
  rcases h1 : shift_move data st with ⟨st1, b1⟩
  rw [h1] at h
  cases b1 with
  | true =>
    dsimp only at h
    have e : st1 = st' := congrArg Prod.fst h
    subst e
    exact shift_move_ofTrue data st st1 h1
  | false =>
    have e1 : st1 = st := by
      have h' := shift_move_ofFalse data st (by rw [h1])
      rw [h1] at h'
      exact h'
    dsimp only at h
    rcases h2 : swap_move data st1 with ⟨st2, b2⟩
    rw [h2] at h
    cases b2 with
    | true =>
      dsimp only at h
      have e : st2 = st' := congrArg Prod.fst h
      subst e
      rw [← e1]
      exact swap_move_ofTrue data st1 st2 h2
    | false =>
      have e2 : st2 = st1 := by
        have h' := swap_move_ofFalse data st1 (by rw [h2])
        rw [h2] at h'
        exact h'
      dsimp only at h
      rcases h3 : drop_move data st2 with ⟨st3, b3⟩
      rw [h3] at h
      cases b3 with
      | true =>
        dsimp only at h
        have e : st3 = st' := congrArg Prod.fst h
        subst e
        rw [← e1, ← e2]
        exact drop_move_ofTrue data st2 st3 h3
      | false =>
        have e3 : st3 = st2 := by
          have h' := drop_move_ofFalse data st2 (by rw [h3])
          rw [h3] at h'
          exact h'
        dsimp only at h
        rcases h4 : open_move data st3 with ⟨st4, b4⟩
        rw [h4] at h
        cases b4 with
        | true =>
          dsimp only at h
          have e : st4 = st' := congrArg Prod.fst h
          subst e
          rw [← e1, ← e2, ← e3]
          exact open_move_ofTrue data st3 st4 h4
        | false =>
          dsimp only at h
          simp at h

theorem noImprovingMove_pass (data : ProblemData) (st : SolverState)
    (h : noImprovingMove data st) : localSearchPass data st = (st, false) := by
  obtain ⟨h1, h2, h3, h4⟩ := h
  have hp1 : shift_move data st = (st, false) :=
    Prod.ext (shift_move_ofFalse data st h1) h1
  have hp2 : swap_move data st = (st, false) :=
    Prod.ext (swap_move_ofFalse data st h2) h2
  have hp3 : drop_move data st = (st, false) :=
    Prod.ext (drop_move_ofFalse data st h3) h3
  have hp4 : open_move data st = (st, false) :=
    Prod.ext (open_move_ofFalse data st h4) h4
  unfold localSearchPass
  rw [hp1]
  dsimp only
  rw [hp2]
  dsimp only
  rw [hp3]
  dsimp only
  rw [hp4]

theorem aux_of_noImprovingMove (data : ProblemData) (st : SolverState)
    (h : noImprovingMove data st) :
    ∀ fuel, localSearchAux data fuel st = st ∧
      localSearchTrace data fuel st = [] := by
  intro fuel
  cases fuel with
  | zero => exact ⟨rfl, rfl⟩
  | succ fuel =>
    rw [localSearchAux, localSearchTrace, noImprovingMove_pass data st h]
    exact ⟨rfl, rfl⟩

theorem trace_length_le (data : ProblemData) :
    ∀ (fuel : Nat) (st : SolverState),
      (localSearchTrace data fuel st).length ≤ fuel := by
  intro fuel
  induction fuel with
  | zero => intro st; simp [localSearchTrace]
  | succ fuel ih =>
    intro st
    rw [localSearchTrace]
    rcases hp : localSearchPass data st with ⟨st', b⟩
    cases b with
    | true =>
      dsimp only
      have := ih st'
      simp only [List.length_cons]
      omega
    | false => simp

theorem aux_noMove_of_short (data : ProblemData) :
    ∀ (fuel : Nat) (st : SolverState),
      (localSearchTrace data fuel st).length < fuel →
      noImprovingMove data (localSearchAux data fuel st) := by
  intro fuel
  induction fuel with
  | zero => intro st h; simp [localSearchTrace] at h
  | succ fuel ih =>
    intro st h
    rw [localSearchTrace] at h
    rw [localSearchAux]
    rcases hp : localSearchPass data st with ⟨st', b⟩
    rw [hp] at h
    cases b with
    | true =>
      dsimp only at h ⊢
      exact ih st' (by simpa using h)
    | false =>
      dsimp only
      have := localSearchPass_ofFalse data st (by rw [hp])
      rw [hp] at this
      rcases this with ⟨e, hnm⟩
      dsimp only at e
      rw [e]
      exact hnm

/-- C4: every committed local-search move strictly decreases the total
cost relative to the cost at the committing operator's entry, so the
entry cost followed by the costs observed at successive commit points
forms a strictly decreasing chain (`ltInf b a` says `b < a` with `none`
as `+infinity`); no operator ever commits a non-improving move. -/
theorem local_search_costs_strictly_decrease (data : ProblemData)
    (fuel : Nat) (st : SolverState) :
    List.Chain (fun a b => ltInf b a = true)
      (calculate_total_cost data st.assignment)
      (localSearchTrace data fuel st) := by
  induction fuel generalizing st with
  | zero => exact List.Chain.nil
  | succ fuel ih =>
    rw [localSearchTrace]
    rcases hp : localSearchPass data st with ⟨st', b⟩
    cases b with
    | true =>
      dsimp only
      exact List.Chain.cons (localSearchPass_ofTrue data st st' hp) (ih st')
    | false => exact List.Chain.nil

/-- C5: each of the four move operators is atomic: a `False` return
leaves the solver state (in particular the assignment array) exactly as
it was at entry — every tentative mutation is reverted — and a `True`
return commits a state whose total cost is finite and strictly lower
than the entry cost, so no infeasible state is ever committed. -/
theorem moves_atomic (data : ProblemData) (st : SolverState) :
    ((shift_move data st).2 = false → (shift_move data st).1 = st) ∧
    ((swap_move data st).2 = false → (swap_move data st).1 = st) ∧
    ((drop_move data st).2 = false → (drop_move data st).1 = st) ∧
    ((open_move data st).2 = false → (open_move data st).1 = st) ∧
    ((shift_move data st).2 = true → ∃ c,
      calculate_total_cost data (shift_move data st).1.assignment = some c ∧
      ltInf (some c) (calculate_total_cost data st.assignment) = true) ∧
    ((swap_move data st).2 = true → ∃ c,
      calculate_total_cost data (swap_move data st).1.assignment = some c ∧
      ltInf (some c) (calculate_total_cost data st.assignment) = true) ∧
    ((drop_move data st).2 = true → ∃ c,
      calculate_total_cost data (drop_move data st).1.assignment = some c ∧
      ltInf (some c) (calculate_total_cost data st.assignment) = true) ∧
    ((open_move data st).2 = true → ∃ c,
      calculate_total_cost data (open_move data st).1.assignment = some c ∧
      ltInf (some c) (calculate_total_cost data st.assignment) = true) := by
  refine ⟨shift_move_ofFalse data st, swap_move_ofFalse data st,
    drop_move_ofFalse data st, open_move_ofFalse data st, ?_, ?_, ?_, ?_⟩
  · intro h
    have hlt := shift_move_ofTrue data st (shift_move data st).1
      (Prod.ext rfl h)
    obtain ⟨c, hc⟩ := ltInf_isSome _ _ hlt
    exact ⟨c, hc, hc ▸ hlt⟩
  · intro h
    have hlt := swap_move_ofTrue data st (swap_move data st).1
      (Prod.ext rfl h)
    obtain ⟨c, hc⟩ := ltInf_isSome _ _ hlt
    exact ⟨c, hc, hc ▸ hlt⟩
  · intro h
    have hlt := drop_move_ofTrue data st (drop_move data st).1
      (Prod.ext rfl h)
    obtain ⟨c, hc⟩ := ltInf_isSome _ _ hlt
    exact ⟨c, hc, hc ▸ hlt⟩
  · intro h
    have hlt := open_move_ofTrue data st (open_move data st).1
      (Prod.ext rfl h)
    obtain ⟨c, hc⟩ := ltInf_isSome _ _ hlt
    exact ⟨c, hc, hc ▸ hlt⟩

/-- Witness for C5 at a concrete instance: on `cexData`/`cexStart` the
swap operator finds nothing and leaves the state untouched, while the
shift operator commits a strictly improving, finite-cost state. -/
theorem moves_atomic_witness :
    (swap_move cexData cexStart).1 = cexStart ∧
    ∃ c, calculate_total_cost cexData
        (shift_move cexData cexStart).1.assignment = some c ∧
      ltInf (some c) (calculate_total_cost cexData cexStart.assignment)
        = true :=
  ⟨(moves_atomic cexData cexStart).2.1 (by decide),
   (moves_atomic cexData cexStart).2.2.2.2.1 (by decide)⟩

/-- C6: `local_search` terminates: the number of committed moves is
bounded by `max_iterations` (each outer iteration commits at most one
move), if the run used fewer commits than the cap then it halted because
a full pass over Shift, Swap, Drop and Open (in that fixed order, see
`localSearchPass`) found no improving move, and a committed pass makes
the next iteration restart from the Shift operator. -/
theorem local_search_terminates (data : ProblemData) (fuel : Nat)
    (st : SolverState) :
    (localSearchTrace data fuel st).length ≤ fuel ∧
    ((localSearchTrace data fuel st).length < fuel →
      noImprovingMove data (localSearchAux data fuel st)) ∧
    (∀ st', localSearchPass data st = (st', true) →
      localSearchAux data (fuel + 1) st = localSearchAux data fuel st') := by
  refine ⟨trace_length_le data fuel st, aux_noMove_of_short data fuel st, ?_⟩
  intro st' hp
  rw [localSearchAux, hp]

/-- Witness for C6: on `cexData` a 5-iteration run commits fewer than 5
moves, so the final state admits no improving move of any type. -/
theorem local_search_terminates_witness :
    noImprovingMove cexData (localSearchAux cexData 5 cexStart) :=
  (local_search_terminates cexData 5 cexStart).2.1 (by decide)

/-- Counterexample to C8 as stated: `local_search` with
`max_iterations = 1` on `cexStart` is a completed run returning cost 21,
but running `local_search` again on its output commits a further move
and returns the different cost 11 — idempotence fails when the first
run stopped at the iteration cap rather than at convergence. -/
theorem local_search_not_idempotent :
    (local_search cexData 1 cexStart).2 = some 21 ∧
    localSearchTrace cexData 5 (local_search cexData 1 cexStart).1 ≠ [] ∧
    (local_search cexData 5 (local_search cexData 1 cexStart).1).2 = some 11 :=
  ⟨by decide, by decide, by decide⟩

/-- C8 (amended): if a completed `local_search` run stopped because a
full pass found no improvement (it committed fewer moves than its
iteration cap) then running `local_search` again on its output, with
any iteration cap, commits zero moves (no operator ever returns `True`,
the commit trace is empty), leaves the state unchanged and returns the
same total cost. -/
theorem local_search_idempotent_of_converged (data : ProblemData)
    (fuel1 fuel2 : Nat) (st0 : SolverState)
    (h : (localSearchTrace data fuel1 st0).length < fuel1) :
    noImprovingMove data (localSearchAux data fuel1 st0) ∧
    localSearchTrace data fuel2 (localSearchAux data fuel1 st0) = [] ∧
    localSearchAux data fuel2 (localSearchAux data fuel1 st0)
      = localSearchAux data fuel1 st0 ∧
    (local_search data fuel2 (localSearchAux data fuel1 st0)).2
      = (local_search data fuel1 st0).2 := by
  have hnm := aux_noMove_of_short data fuel1 st0 h
  have h2 := aux_of_noImprovingMove data _ hnm fuel2
  refine ⟨hnm, h2.2, h2.1, ?_⟩
  unfold local_search
  dsimp only
  rw [h2.1]

/-- Witness for the amended C8: a converged 5-iteration run on `cexData`
re-run with cap 7 commits nothing and keeps its cost. -/
theorem local_search_idempotent_witness :
    noImprovingMove cexData (localSearchAux cexData 5 cexStart) ∧
    localSearchTrace cexData 7 (localSearchAux cexData 5 cexStart) = [] ∧
    localSearchAux cexData 7 (localSearchAux cexData 5 cexStart)
      = localSearchAux cexData 5 cexStart ∧
    (local_search cexData 7 (localSearchAux cexData 5 cexStart)).2
      = (local_search cexData 5 cexStart).2 :=
  local_search_idempotent_of_converged cexData 5 7 cexStart (by decide)

/-- Witness for C2: on `cexData` with both costs at facility 0 the
evaluator returns 31, which equals the per-facility sum. -/
theorem total_cost_matches_spec_witness :
    (31 : ℚ) = ((List.range cexData.num_I).map
      (facilityOpenCost cexData cexStart.assignment)).sum :=
  (total_cost_matches_spec cexData cexStart.assignment).2 31 (by decide)

/-- C10: when `_open_move` evaluates a potential site `j` that is
unassigned (sentinel `-1`), the "current distance" is read by Python
negative indexing from the distance matrix at row `-1`, i.e. the last
facility's row `num_I - 1`; no error is raised and the sentinel gets no
special handling — the site is compared as if it were currently served
by facility `num_I - 1`. -/
theorem open_move_unassigned_reads_last_row (data : ProblemData)
    (a : List ℤ) (new_i j : Nat) (hun : a.getD j (-1) = -1)
    (hlen : data.d_ij.length = data.num_I) (hpos : 0 < data.num_I) :
    openSiteSaving data a new_i j =
      (if (data.d_ij.getD new_i []).getD j 0
          < (data.d_ij.getD (data.num_I - 1) []).getD j 0 then
        some (j, (data.d_ij.getD (data.num_I - 1) []).getD j 0
          - (data.d_ij.getD new_i []).getD j 0)
      else none) := by
  unfold openSiteSaving
  rw [hun]
  have hrow : pyGet data.d_ij (-1) [] = data.d_ij.getD (data.num_I - 1) [] := by
    unfold pyGet
    rw [if_pos (by norm_num : (-1 : ℤ) < 0)]
    norm_num [hlen]
  dsimp only
  rw [hrow]

/-- Witness for C10: on `unassignedData` (rows `[[2], [9]]`, site 0
unassigned) the open move reads row 1 (the last facility), sees distance
9 and proposes the site with saving `9 - 2 = 7`. -/
theorem open_move_unassigned_witness :
    openSiteSaving unassignedData [-1] 0 0 = some (0, 7) :=
  (open_move_unassigned_reads_last_row unassignedData [-1] 0 0
    (by decide) (by decide) (by decide)).trans (by decide)

/-! ### C7: greedy construction -/

theorem mem_insertDesc (key : Nat → ℚ) (i y : Nat) :
    ∀ l : List Nat, y ∈ insertDesc key i l ↔ y = i ∨ y ∈ l := by
  intro l
  induction l with
  | nil => simp [insertDesc]
  | cons x xs ih =>
    rw [insertDesc]
    by_cases hlt : key x < key i
    · simp [hlt]
    · rw [if_neg hlt]
      simp only [List.mem_cons, ih]
      tauto

theorem insertDesc_perm (key : Nat → ℚ) (i : Nat) :
    ∀ l : List Nat, List.Perm (insertDesc key i l) (i :: l) := by
  intro l
  induction l with
  | nil => exact List.Perm.refl _
  | cons x xs ih =>
    rw [insertDesc]
    by_cases hlt : key x < key i
    · rw [if_pos hlt]
    · rw [if_neg hlt]
      exact (ih.cons x).trans (List.Perm.swap i x xs)

theorem sortDesc_perm (key : Nat → ℚ) :
    ∀ l : List Nat, List.Perm (sortDesc key l) l := by
  intro l
  induction l with
  | nil => exact List.Perm.refl _
  | cons x xs ih =>
    rw [sortDesc]
    exact (insertDesc_perm key x (sortDesc key xs)).trans (ih.cons x)

theorem insertDesc_pairwise (key : Nat → ℚ) (i : Nat) :
    ∀ l : List Nat, l.Pairwise (fun a b => key b ≤ key a) →
      (insertDesc key i l).Pairwise (fun a b => key b ≤ key a) := by
  intro l
  induction l with
  | nil => intro _; simp [insertDesc]
  | cons x xs ih =>
    intro h
    rw [insertDesc]
    rcases List.pairwise_cons.1 h with ⟨hx, hxs⟩
    by_cases hlt : key x < key i
    · rw [if_pos hlt]
      refine List.pairwise_cons.2 ⟨?_, h⟩
      intro y hy
      rcases List.mem_cons.1 hy with rfl | hy'
      · exact le_of_lt hlt
      · exact le_trans (hx y hy') (le_of_lt hlt)
    · rw [if_neg hlt]
      refine List.pairwise_cons.2 ⟨?_, ih hxs⟩
      intro y hy
      rcases (mem_insertDesc key i y xs).1 hy with rfl | hy'
      · exact le_of_not_lt hlt
      · exact hx y hy'

theorem sortDesc_pairwise (key : Nat → ℚ) :
    ∀ l : List Nat, (sortDesc key l).Pairwise (fun a b => key b ≤ key a) := by
  intro l
  induction l with
  | nil => simp [sortDesc]
  | cons x xs ih => exact insertDesc_pairwise key x _ ih

theorem argmin_fold_invariant (f : Nat → Option ℚ) :
    ∀ (l processed : List Nat) (acc : ℤ × Option ℚ),
      ((acc = (-1, none) ∧ ∀ i ∈ processed, f i = none) ∨
        (∃ i0 ∈ processed, ∃ c, acc = ((i0 : ℤ), some c) ∧ f i0 = some c ∧
          ∀ i' ∈ processed, ∀ c', f i' = some c' → c ≤ c')) →
      ((l.foldl (fun (acc : ℤ × Option ℚ) (i : Nat) =>
          match f i with
          | none => acc
          | some c => if ltInf (some c) acc.2 then ((i : ℤ), some c) else acc)
        acc = (-1, none) ∧ ∀ i ∈ processed ++ l, f i = none) ∨
        (∃ i0 ∈ processed ++ l, ∃ c,
          l.foldl (fun (acc : ℤ × Option ℚ) (i : Nat) =>
            match f i with
            | none => acc
            | some c => if ltInf (some c) acc.2 then ((i : ℤ), some c) else acc)
          acc = ((i0 : ℤ), some c) ∧ f i0 = some c ∧
          ∀ i' ∈ processed ++ l, ∀ c', f i' = some c' → c ≤ c')) := by
  intro l
  induction l with
  | nil =>
    intro processed acc hP
    simpa using hP
  | cons i l ih =>
    intro processed acc hP
    rw [List.foldl_cons]
    have hmem : ∀ (P : Nat → Prop), (∀ x ∈ (processed ++ [i]) ++ l, P x) ↔
        (∀ x ∈ processed ++ i :: l, P x) := by
      intro P
      constructor <;> intro hh x hx <;> apply hh <;>
        simp only [List.mem_append, List.mem_cons, List.mem_singleton] at hx ⊢ <;>
        tauto
    have hmem2 : ∀ x, x ∈ (processed ++ [i]) ++ l ↔ x ∈ processed ++ i :: l := by
      intro x
      simp only [List.mem_append, List.mem_cons, List.mem_singleton]
      tauto
    cases hf : f i with
    | none =>
      dsimp only
      have hP' : (acc = (-1, none) ∧ ∀ i' ∈ processed ++ [i], f i' = none) ∨
          (∃ i0 ∈ processed ++ [i], ∃ c, acc = ((i0 : ℤ), some c) ∧
            f i0 = some c ∧
            ∀ i' ∈ processed ++ [i], ∀ c', f i' = some c' → c ≤ c') := by
        rcases hP with ⟨hacc, hall⟩ | ⟨i0, hi0, c, hacc, hfi0, hmin⟩
        · left
          refine ⟨hacc, ?_⟩
          intro i' hi'
          rcases List.mem_append.1 hi' with h | h
          · exact hall i' h
          · rw [List.mem_singleton.1 h]
            exact hf
        · right
          refine ⟨i0, List.mem_append_left _ hi0, c, hacc, hfi0, ?_⟩
          intro i' hi' c' hc'
          rcases List.mem_append.1 hi' with h | h
          · exact hmin i' h c' hc'
          · rw [List.mem_singleton.1 h] at hc'
            rw [hf] at hc'
            exact absurd hc' (by simp)
      have := ih (processed ++ [i]) acc hP'
      rcases this with ⟨hr, hall⟩ | ⟨i0, hi0, c, hr, hfi0, hmin⟩
      · left
        exact ⟨hr, (hmem _).1 hall⟩
      · right
        exact ⟨i0, (hmem2 i0).1 hi0, c, hr, hfi0,
          fun i' hi' => hmin i' ((hmem2 i').2 hi')⟩
    | some c =>
      dsimp only
      by_cases hlt : ltInf (some c) acc.2 = true
      · rw [if_pos hlt]
        have hP' : (((i : ℤ), some c) = ((-1 : ℤ), (none : Option ℚ)) ∧
              ∀ i' ∈ processed ++ [i], f i' = none) ∨
            (∃ i0 ∈ processed ++ [i], ∃ c0, ((i : ℤ), some c)
                = ((i0 : ℤ), some c0) ∧ f i0 = some c0 ∧
              ∀ i' ∈ processed ++ [i], ∀ c', f i' = some c' → c0 ≤ c') := by
          right
          refine ⟨i, List.mem_append_right _ (List.mem_singleton_self i),
            c, rfl, hf, ?_⟩
          intro i' hi' c' hc'
          rcases List.mem_append.1 hi' with h | h
          · rcases hP with ⟨hacc, hall⟩ | ⟨i0, hi0, c0, hacc, hfi0, hmin⟩
            · rw [hall i' h] at hc'
              exact absurd hc' (by simp)
            · have hacc2 : acc.2 = some c0 := by rw [hacc]
              rw [hacc2] at hlt
              have hcc0 : c < c0 := by
                simpa [ltInf] using hlt
              exact le_trans (le_of_lt hcc0) (hmin i' h c' hc')
          · rw [List.mem_singleton.1 h] at hc'
            rw [hf] at hc'
            exact le_of_eq (Option.some_injective ℚ hc')
        have := ih (processed ++ [i]) _ hP'
        rcases this with ⟨hr, hall⟩ | ⟨i0, hi0, c0, hr, hfi0, hmin⟩
        · left
          exact ⟨hr, (hmem _).1 hall⟩
        · right
          exact ⟨i0, (hmem2 i0).1 hi0, c0, hr, hfi0,
            fun i' hi' => hmin i' ((hmem2 i').2 hi')⟩
      · rw [if_neg hlt]
        have hP' : (acc = (-1, none) ∧ ∀ i' ∈ processed ++ [i], f i' = none) ∨
            (∃ i0 ∈ processed ++ [i], ∃ c0, acc = ((i0 : ℤ), some c0) ∧
              f i0 = some c0 ∧
              ∀ i' ∈ processed ++ [i], ∀ c', f i' = some c' → c0 ≤ c') := by
          rcases hP with ⟨hacc, hall⟩ | ⟨i0, hi0, c0, hacc, hfi0, hmin⟩
          · exfalso
            apply hlt
            rw [hacc]
            rfl
          · right
            refine ⟨i0, List.mem_append_left _ hi0, c0, hacc, hfi0, ?_⟩
            intro i' hi' c' hc'
            rcases List.mem_append.1 hi' with h | h
            · exact hmin i' h c' hc'
            · rw [List.mem_singleton.1 h] at hc'
              rw [hf] at hc'
              have hc'c : c' = c := Option.some_injective ℚ hc'.symm
              have hacc2 : acc.2 = some c0 := by rw [hacc]
              rw [hacc2] at hlt
              have hnlt : ¬ c < c0 := by
                intro hcc
                exact hlt (by simpa [ltInf] using hcc)
              rw [hc'c]
              exact le_of_not_lt hnlt
        have := ih (processed ++ [i]) acc hP'
        rcases this with ⟨hr, hall⟩ | ⟨i0, hi0, c0, hr, hfi0, hmin⟩
        · left
          exact ⟨hr, (hmem _).1 hall⟩
        · right
          exact ⟨i0, (hmem2 i0).1 hi0, c0, hr, hfi0,
            fun i' hi' => hmin i' ((hmem2 i').2 hi')⟩

theorem argmin_result (f : Nat → Option ℚ) (l : List Nat) :
    ((l.foldl (fun (acc : ℤ × Option ℚ) (i : Nat) =>
        match f i with
        | none => acc
        | some c => if ltInf (some c) acc.2 then ((i : ℤ), some c) else acc)
      (-1, none)).1 = -1 ↔ ∀ i ∈ l, f i = none) ∧
    (∀ i : Nat, (l.foldl (fun (acc : ℤ × Option ℚ) (i : Nat) =>
        match f i with
        | none => acc
        | some c => if ltInf (some c) acc.2 then ((i : ℤ), some c) else acc)
      (-1, none)).1 = (i : ℤ) →
      i ∈ l ∧ ∃ c, f i = some c ∧
        ∀ i' ∈ l, ∀ c', f i' = some c' → c ≤ c') := by
  have hP := argmin_fold_invariant f l [] (-1, none)
    (Or.inl ⟨rfl, by simp⟩)
  simp only [List.nil_append] at hP
  constructor
  · constructor
    · intro h1
      rcases hP with ⟨_, hall⟩ | ⟨i0, _, c, hr, _, _⟩
      · exact hall
      · rw [hr] at h1
        have h1' : (i0 : ℤ) = -1 := h1
        omega
    · intro hall
      rcases hP with ⟨hr, _⟩ | ⟨i0, hi0, c, _, hfi0, _⟩
      · rw [hr]
      · rw [hall i0 hi0] at hfi0
        exact absurd hfi0 (by simp)
  · intro i hi
    rcases hP with ⟨hr, _⟩ | ⟨i0, hi0, c, hr, hfi0, hmin⟩
    · rw [hr] at hi
      have hi' : (-1 : ℤ) = (i : ℤ) := hi
      omega
    · rw [hr] at hi
      have hi' : (i0 : ℤ) = (i : ℤ) := hi
      have hii : i0 = i := by omega
      subst hii
      exact ⟨hi0, c, hfi0, hmin⟩

theorem greedyPick_char (data : ProblemData) (st : SolverState) (j : Nat) :
    (greedyPick data st j = -1 ↔
      ∀ i ∈ List.range data.num_I, greedyCandCost data st j i = none) ∧
    (∀ i : Nat, greedyPick data st j = (i : ℤ) →
      i ∈ List.range data.num_I ∧ ∃ c, greedyCandCost data st j i = some c ∧
        ∀ i' ∈ List.range data.num_I, ∀ c',
          greedyCandCost data st j i' = some c' → c ≤ c') := by
  have hstep : (fun (acc : ℤ × Option ℚ) (i : Nat) =>
      if can_serve data (i : ℤ) j then
        let current_demand := facilityDemand data st.assignment i
        let new_demand := current_demand + data.D_j.getD j 0
        match calculate_resource_mix data new_demand i with
        | none => acc
        | some rh =>
          let cost_new := greedyMarginalCost data st i rh
          if ltInf (some cost_new) acc.2 then ((i : ℤ), some cost_new) else acc
      else acc)
      = (fun (acc : ℤ × Option ℚ) (i : Nat) =>
        match greedyCandCost data st j i with
        | none => acc
        | some c => if ltInf (some c) acc.2 then ((i : ℤ), some c) else acc) := by
    funext acc i
    unfold greedyCandCost
    by_cases hcs : can_serve data (i : ℤ) j = true
    · rw [if_pos hcs, if_pos hcs]
      dsimp only
      cases hm : calculate_resource_mix data
          (facilityDemand data st.assignment i + data.D_j.getD j 0) i with
      | none => rfl
      | some rh => rfl
    · rw [if_neg hcs, if_neg hcs]
  unfold greedyPick
  rw [hstep]
  exact argmin_result (greedyCandCost data st j) (List.range data.num_I)

theorem greedyPick_can_serve (data : ProblemData) (st : SolverState) (j : Nat) :
    greedyPick data st j = -1 ∨
      can_serve data (greedyPick data st j) j = true := by
  unfold greedyPick
  generalize List.range data.num_I = l
  suffices h : ∀ (acc : ℤ × Option ℚ),
      (acc.1 = -1 ∨ can_serve data acc.1 j = true) →
      ((l.foldl (fun (acc : ℤ × Option ℚ) (i : Nat) =>
        if can_serve data (i : ℤ) j then
          let current_demand := facilityDemand data st.assignment i
          let new_demand := current_demand + data.D_j.getD j 0
          match calculate_resource_mix data new_demand i with
          | none => acc
          | some rh =>
            let cost_new := greedyMarginalCost data st i rh
            if ltInf (some cost_new) acc.2 then ((i : ℤ), some cost_new)
            else acc
        else acc) acc).1 = -1 ∨
        can_serve data ((l.foldl (fun (acc : ℤ × Option ℚ) (i : Nat) =>
          if can_serve data (i : ℤ) j then
            let current_demand := facilityDemand data st.assignment i
            let new_demand := current_demand + data.D_j.getD j 0
            match calculate_resource_mix data new_demand i with
            | none => acc
            | some rh =>
              let cost_new := greedyMarginalCost data st i rh
              if ltInf (some cost_new) acc.2 then ((i : ℤ), some cost_new)
              else acc
          else acc) acc).1) j = true) by
    exact h (-1, none) (Or.inl rfl)
  induction l with
  | nil => intro acc hacc; exact hacc
  | cons i l ih =>
    intro acc hacc
    rw [List.foldl_cons]
    apply ih
    by_cases hcs : can_serve data (i : ℤ) j = true
    · rw [if_pos hcs]
      dsimp only
      cases hm : calculate_resource_mix data
          (facilityDemand data st.assignment i + data.D_j.getD j 0) i with
      | none => exact hacc
      | some rh =>
        dsimp only
        by_cases hlt : ltInf (some (greedyMarginalCost data st i rh)) acc.2
            = true
        · rw [if_pos hlt]
          exact Or.inr hcs
        · rw [if_neg hlt]
          exact hacc
    · rw [if_neg hcs]
      exact hacc

theorem dropFindAlt_can_serve (data : ProblemData) (assignment : List ℤ)
    (openFs : List Nat) (drop_i j : Nat) :
    dropFindAlt data assignment openFs drop_i j = -1 ∨
      can_serve data (dropFindAlt data assignment openFs drop_i j) j
        = true := by
  unfold dropFindAlt
  suffices h : ∀ (acc : ℤ × Option ℚ),
      (acc.1 = -1 ∨ can_serve data acc.1 j = true) →
      ((openFs.foldl (fun (acc : ℤ × Option ℚ) alt_i =>
        if alt_i = drop_i then acc
        else if ¬ can_serve data (alt_i : ℤ) j then acc
        else
          let current_alt_demand := facilityDemand data assignment alt_i
          let new_alt_demand := current_alt_demand + data.D_j.getD j 0
          match calculate_resource_mix data new_alt_demand alt_i with
          | none => acc
          | some rhNew =>
            let rhOld :=
              (calculate_resource_mix data current_alt_demand alt_i).getD (0, 0)
            let increase := ((rhNew.1 - rhOld.1) : ℚ) * data.C_robot
                          + ((rhNew.2 - rhOld.2) : ℚ) * data.C_human
            if ltInf (some increase) acc.2 then ((alt_i : ℤ), some increase)
            else acc) acc).1 = -1 ∨
        can_serve data ((openFs.foldl (fun (acc : ℤ × Option ℚ) alt_i =>
          if alt_i = drop_i then acc
          else if ¬ can_serve data (alt_i : ℤ) j then acc
          else
            let current_alt_demand := facilityDemand data assignment alt_i
            let new_alt_demand := current_alt_demand + data.D_j.getD j 0
            match calculate_resource_mix data new_alt_demand alt_i with
            | none => acc
            | some rhNew =>
              let rhOld :=
                (calculate_resource_mix data current_alt_demand alt_i).getD
                  (0, 0)
              let increase := ((rhNew.1 - rhOld.1) : ℚ) * data.C_robot
                            + ((rhNew.2 - rhOld.2) : ℚ) * data.C_human
              if ltInf (some increase) acc.2 then ((alt_i : ℤ), some increase)
              else acc) acc).1) j = true) by
    exact h (-1, none) (Or.inl rfl)
  induction openFs with
  | nil => intro acc hacc; exact hacc
  | cons alt_i l ih =>
    intro acc hacc
    rw [List.foldl_cons]
    apply ih
    by_cases hd : alt_i = drop_i
    · rw [if_pos hd]
      exact hacc
    · rw [if_neg hd]
      by_cases hcs : can_serve data (alt_i : ℤ) j = true
      · rw [if_neg (not_not_intro hcs)]
        dsimp only
        cases hm : calculate_resource_mix data
            (facilityDemand data assignment alt_i + data.D_j.getD j 0)
            alt_i with
        | none => exact hacc
        | some rhNew =>
          dsimp only
          split
          · exact Or.inr hcs
          · exact hacc
      · rw [if_pos (by simpa using hcs)]
        exact hacc

theorem greedyAssign_of_pick_neg (data : ProblemData) (st : SolverState)
    (j : Nat) (h : greedyPick data st j = -1) :
    greedyAssign data st j = st := by
  unfold greedyAssign
  rw [if_pos h]

theorem greedyAssign_of_pick (data : ProblemData) (st : SolverState)
    (j : Nat) (h : greedyPick data st j ≠ -1) :
    (greedyAssign data st j).assignment
      = st.assignment.set j (greedyPick data st j) := by
  unfold greedyAssign
  rw [if_neg h]
  dsimp only
  split <;> rfl

/-- C7: the constructive greedy stage processes the demand sites in the
order `sorted_J` — a permutation of all sites that is descending in
demand and a deterministic function of the input; for each site the
candidate costs (`greedyCandCost`) are `none` exactly off SLA-eligible
or INFEASIBLE facilities, the fixed + operational cost enters the
marginal cost only for a not-yet-open facility, the selected facility
minimises the candidate cost, and the site stays unassigned (`-1`, state
untouched) exactly when every candidate is `none`. -/
theorem constructive_greedy_matches_spec (data : ProblemData) :
    (∀ st, constructive_greedy data st
      = (sorted_J data).foldl (greedyAssign data) st) ∧
    List.Perm (sorted_J data) (List.range data.num_J) ∧
    (sorted_J data).Pairwise
      (fun j1 j2 => data.D_j.getD j2 0 ≤ data.D_j.getD j1 0) ∧
    (∀ (st : SolverState) (j i : Nat), greedyCandCost data st j i = none ↔
      (can_serve data (i : ℤ) j = false ∨
        calculate_resource_mix data
          (facilityDemand data st.assignment i + data.D_j.getD j 0) i
          = none)) ∧
    (∀ (st : SolverState) (i : Nat) (rh : ℤ × ℤ), st.y.getD i 0 = 0 →
      greedyMarginalCost data st i rh
        = (rh.1 : ℚ) * data.C_robot + (rh.2 : ℚ) * data.C_human
          + (data.F_i.getD i 0 + data.O_i.getD i 0)) ∧
    (∀ (st : SolverState) (i : Nat) (rh : ℤ × ℤ), st.y.getD i 0 ≠ 0 →
      greedyMarginalCost data st i rh
        = (rh.1 : ℚ) * data.C_robot + (rh.2 : ℚ) * data.C_human) ∧
    (∀ st j, greedyPick data st j = -1 ↔
      ∀ i, i < data.num_I → greedyCandCost data st j i = none) ∧
    (∀ (st : SolverState) (j i : Nat), greedyPick data st j = (i : ℤ) →
      i < data.num_I ∧ ∃ c, greedyCandCost data st j i = some c ∧
        ∀ i', i' < data.num_I → ∀ c',
          greedyCandCost data st j i' = some c' → c ≤ c') ∧
    (∀ st j, greedyPick data st j = -1 → greedyAssign data st j = st) ∧
    (∀ st j, greedyPick data st j ≠ -1 →
      (greedyAssign data st j).assignment
        = st.assignment.set j (greedyPick data st j)) := by
  refine ⟨fun st => rfl, sortDesc_perm _ _, sortDesc_pairwise _ _,
    ?_, ?_, ?_, ?_, ?_,
    fun st j => greedyAssign_of_pick_neg data st j,
    fun st j => greedyAssign_of_pick data st j⟩
  · intro st j i
    unfold greedyCandCost
    by_cases hcs : can_serve data (i : ℤ) j = true
    · rw [if_pos hcs]
      cases hm : calculate_resource_mix data
          (facilityDemand data st.assignment i + data.D_j.getD j 0) i with
      | none => simp [hcs, hm]
      | some rh => simp [hcs, hm]
    · rw [if_neg hcs]
      simp only [Bool.not_eq_true] at hcs
      simp [hcs]
  · intro st i rh h
    unfold greedyMarginalCost
    rw [if_pos h]
  · intro st i rh h
    unfold greedyMarginalCost
    rw [if_neg h]
    ring
  · intro st j
    rw [(greedyPick_char data st j).1]
    constructor
    · intro h i hi
      exact h i (List.mem_range.2 hi)
    · intro h i hi
      exact h i (List.mem_range.1 hi)
  · intro st j i h
    obtain ⟨hmem, c, hc, hmin⟩ := (greedyPick_char data st j).2 i h
    exact ⟨List.mem_range.1 hmem, c, hc,
      fun i' hi' c' hc' => hmin i' (List.mem_range.2 hi') c' hc'⟩

/-- Witness for C7: on `cexData` from the fresh state, site 0 picks
facility 2, whose candidate cost 11 is minimal among all three
facilities. -/
theorem constructive_greedy_witness :
    2 < cexData.num_I ∧
    ∃ c, greedyCandCost cexData (initState cexData) 0 2 = some c ∧
      ∀ i', i' < cexData.num_I → ∀ c',
        greedyCandCost cexData (initState cexData) 0 i' = some c' →
          c ≤ c' :=
  (constructive_greedy_matches_spec cexData).2.2.2.2.2.2.2.1
    (initState cexData) 0 2 (by decide)

/-! ### C3: SLA invariant -/

theorem can_serve_iff (data : ProblemData) (i : ℤ) (j : Nat) :
    can_serve data i j = true ↔
      (pyGet data.d_ij i []).getD j 0 ≤ data.S_max := by
  unfold can_serve
  exact decide_eq_true_iff

theorem slaOK_set (data : ProblemData) (a : List ℤ) (j : Nat) (v : ℤ)
    (h : SlaOK data a) (hv : v = -1 ∨ can_serve data v j = true) :
    SlaOK data (a.set j v) := by
  intro j' hj' hne
  by_cases hjj : j = j'
  · subst hjj
    by_cases hlt : j < a.length
    · rw [getD_set_self a j v (-1) hlt] at hne ⊢
      rcases hv with rfl | hcs
      · exact absurd rfl hne
      · exact (can_serve_iff data v j).1 hcs
    · rw [List.set_eq_of_length_le (Nat.le_of_not_lt hlt)] at hne ⊢
      exact h j hj' hne
  · rw [getD_set_ne a j j' v (-1) hjj] at hne ⊢
    exact h j' hj' hne

theorem revertSites_sla (data : ProblemData) :
    ∀ (orig : List (Nat × ℤ)) (a : List ℤ),
      (∀ p ∈ orig, p.2 = -1 ∨ can_serve data p.2 p.1 = true) →
      SlaOK data a → SlaOK data (revertSites orig a) := by
  intro orig
  induction orig with
  | nil => intro a _ h; exact h
  | cons p rest ih =>
    intro a hvals h
    show SlaOK data (revertSites rest (a.set p.1 p.2))
    exact ih _ (fun q hq => hvals q (List.mem_cons_of_mem _ hq))
      (slaOK_set data a p.1 p.2 h (hvals p (List.mem_cons_self p rest)))

theorem update_sla (data : ProblemData) (st : SolverState)
    (h : SlaOK data st.assignment) :
    SlaOK data (update_facility_state data st).assignment := by
  rw [update_facility_state_assignment]
  exact h

theorem mem_facilitySites_lt (data : ProblemData) (a : List ℤ) (i j : Nat)
    (h : j ∈ facilitySites data a i) : j < data.num_J := by
  unfold facilitySites at h
  exact List.mem_range.1 (List.mem_of_mem_filter h)

theorem getD_ok_of_sla (data : ProblemData) (a : List ℤ) (j : Nat)
    (hj : j < data.num_J) (h : SlaOK data a) :
    a.getD j (-1) = -1 ∨ can_serve data (a.getD j (-1)) j = true := by
  by_cases hne : a.getD j (-1) = -1
  · exact Or.inl hne
  · exact Or.inr ((can_serve_iff data _ j).2 (h j hj hne))

theorem shiftTryK_sla (data : ProblemData) (cc : Option ℚ) (j : Nat)
    (original_i : ℤ)
    (hor : original_i = -1 ∨ can_serve data original_i j = true) :
    ∀ (ks : List Nat) (st : SolverState), SlaOK data st.assignment →
      SlaOK data (shiftTryK data cc j original_i st ks).1.assignment := by
  intro ks
  induction ks with
  | nil => intro st h; exact h
  | cons k ks ih =>
    intro st h
    rw [shiftTryK]
    by_cases hk : (k : ℤ) = original_i
    · rw [if_pos hk]; exact ih st h
    · rw [if_neg hk]
      by_cases hserve : can_serve data (k : ℤ) j = true
      · simp only [hserve, not_true, if_false]
        have h1 : SlaOK data (st.assignment.set j (k : ℤ)) :=
          slaOK_set data st.assignment j (k : ℤ) h (Or.inr hserve)
        by_cases himp : ltInf (calculate_total_cost data
            (st.assignment.set j (k : ℤ))) cc = true
        · rw [if_pos himp]
          exact update_sla data _ h1
        · rw [if_neg himp]
          exact ih _ (slaOK_set data _ j original_i h1 hor)
      · simp only [hserve, not_false_iff, if_true]
        exact ih st h

theorem shiftOuter_sla (data : ProblemData) (cc : Option ℚ) :
    ∀ (js : List Nat) (st : SolverState),
      (∀ j ∈ js, j < data.num_J) → SlaOK data st.assignment →
      SlaOK data (shiftOuter data cc st js).1.assignment := by
  intro js
  induction js with
  | nil => intro st _ h; exact h
  | cons j js ih =>
    intro st hjs h
    rw [shiftOuter]
    have hor := getD_ok_of_sla data st.assignment j
      (hjs j (List.mem_cons_self j js)) h
    rcases hk : shiftTryK data cc j (st.assignment.getD j (-1)) st
        (List.range data.num_I) with ⟨stk, b⟩
    have hstk : SlaOK data stk.assignment := by
      have := shiftTryK_sla data cc j (st.assignment.getD j (-1)) hor
        (List.range data.num_I) st h
      rw [hk] at this
      exact this
    cases b with
    | true => exact hstk
    | false =>
      dsimp only
      exact ih stk (fun j' hj' => hjs j' (List.mem_cons_of_mem _ hj')) hstk

theorem shift_move_sla (data : ProblemData) (st : SolverState)
    (h : SlaOK data st.assignment) :
    SlaOK data (shift_move data st).1.assignment :=
  shiftOuter_sla data _ (List.range data.num_J) st
    (fun j hj => List.mem_range.1 hj) h

theorem swapTryJ2_sla (data : ProblemData) (cc : Option ℚ) (j1 : Nat)
    (i1 : ℤ) (hi1 : i1 = -1 ∨ can_serve data i1 j1 = true) :
    ∀ (rest : List Nat) (st : SolverState),
      (∀ j2 ∈ rest, j2 < data.num_J) → SlaOK data st.assignment →
      SlaOK data (swapTryJ2 data cc j1 i1 st rest).1.assignment := by
  intro rest
  induction rest with
  | nil => intro st _ h; exact h
  | cons j2 rest ih =>
    intro st hrest h
    have hrest' : ∀ j ∈ rest, j < data.num_J :=
      fun j hj => hrest j (List.mem_cons_of_mem _ hj)
    rw [swapTryJ2]
    by_cases heq : i1 = st.assignment.getD j2 (-1)
    · rw [if_pos heq]; exact ih st hrest' h
    · rw [if_neg heq]
      by_cases hserve : can_serve data (st.assignment.getD j2 (-1)) j1 = true ∧
          can_serve data i1 j2 = true
      · rw [if_neg (not_not_intro hserve)]
        have hi2 := getD_ok_of_sla data st.assignment j2
          (hrest j2 (List.mem_cons_self j2 rest)) h
        have h1 : SlaOK data
            ((st.assignment.set j1 (st.assignment.getD j2 (-1))).set j2 i1) :=
          slaOK_set data _ j2 i1
            (slaOK_set data _ j1 _ h (Or.inr hserve.1)) (Or.inr hserve.2)
        by_cases himp : ltInf (calculate_total_cost data
            ((st.assignment.set j1 (st.assignment.getD j2 (-1))).set j2 i1))
            cc = true
        · rw [if_pos himp]
          exact update_sla data _ h1
        · rw [if_neg himp]
          refine ih _ hrest' ?_
          exact slaOK_set data _ j2 _
            (slaOK_set data _ j1 i1 h1 hi1) hi2
      · rw [if_pos hserve]
        exact ih st hrest' h

theorem swapOuter_sla (data : ProblemData) (cc : Option ℚ) :
    ∀ (js : List Nat) (st : SolverState),
      (∀ j ∈ js, j < data.num_J) → SlaOK data st.assignment →
      SlaOK data (swapOuter data cc st js).1.assignment := by
  intro js
  induction js with
  | nil => intro st _ h; exact h
  | cons j1 js ih =>
    intro st hjs h
    rw [swapOuter]
    have hi1 := getD_ok_of_sla data st.assignment j1
      (hjs j1 (List.mem_cons_self j1 js)) h
    rcases hk : swapTryJ2 data cc j1 (st.assignment.getD j1 (-1)) st
        (List.range' (j1 + 1) (data.num_J - (j1 + 1))) with ⟨stk, b⟩
    have hstk : SlaOK data stk.assignment := by
      have := swapTryJ2_sla data cc j1 (st.assignment.getD j1 (-1)) hi1
        (List.range' (j1 + 1) (data.num_J - (j1 + 1))) st
        (fun j2 hj2 => by
          obtain ⟨hlo, hhi⟩ := List.mem_range'_1.1 hj2
          omega) h
      rw [hk] at this
      exact this
    cases b with
    | true => exact hstk
    | false =>
      dsimp only
      exact ih stk (fun j' hj' => hjs j' (List.mem_cons_of_mem _ hj')) hstk

theorem swap_move_sla (data : ProblemData) (st : SolverState)
    (h : SlaOK data st.assignment) :
    SlaOK data (swap_move data st).1.assignment :=
  swapOuter_sla data _ (List.range data.num_J) st
    (fun j hj => List.mem_range.1 hj) h

theorem dropAssignSites_sla (data : ProblemData) (openFs : List Nat)
    (drop_i : Nat) :
    ∀ (sites : List Nat) (a : List ℤ), SlaOK data a →
      SlaOK data (dropAssignSites data openFs drop_i sites a).1 := by
  intro sites
  induction sites with
  | nil => intro a h; exact h
  | cons j rest ih =>
    intro a h
    rw [dropAssignSites]
    by_cases hb : dropFindAlt data a openFs drop_i j = -1
    · rw [if_pos hb]; exact h
    · rw [if_neg hb]
      exact ih _ (slaOK_set data a j _ h
        (dropFindAlt_can_serve data a openFs drop_i j))

theorem dropLoop_sla (data : ProblemData) (cc : Option ℚ)
    (openFs : List Nat) :
    ∀ (fs : List Nat) (st : SolverState), SlaOK data st.assignment →
      SlaOK data (dropLoop data cc openFs st fs).1.assignment := by
  intro fs
  induction fs with
  | nil => intro st h; exact h
  | cons drop_i rest ih =>
    intro st h
    rw [dropLoop]
    dsimp only
    by_cases hempty :
        (facilitySites data st.assignment drop_i).isEmpty = true
    · rw [if_pos hempty]; exact ih st h
    · rw [if_neg hempty]
      have hsla1 : SlaOK data (dropAssignSites data openFs drop_i
          (facilitySites data st.assignment drop_i) st.assignment).1 :=
        dropAssignSites_sla data openFs drop_i _ st.assignment h
      have hrevsla : SlaOK data (revertSites
          ((facilitySites data st.assignment drop_i).map
            fun j => (j, st.assignment.getD j (-1)))
          (dropAssignSites data openFs drop_i
            (facilitySites data st.assignment drop_i) st.assignment).1) := by
        apply revertSites_sla data _ _ _ hsla1
        intro p hp
        rcases List.mem_map.1 hp with ⟨j, hj, rfl⟩
        exact getD_ok_of_sla data st.assignment j
          (mem_facilitySites_lt data st.assignment drop_i j hj) h
      by_cases hok : (dropAssignSites data openFs drop_i
          (facilitySites data st.assignment drop_i) st.assignment).2 = true
      · rw [if_pos hok]
        by_cases himp : ltInf (calculate_total_cost data
            (dropAssignSites data openFs drop_i
              (facilitySites data st.assignment drop_i) st.assignment).1) cc
            = true
        · rw [if_pos himp]
          exact update_sla data _ hsla1
        · rw [if_neg himp]
          exact ih _ hrevsla
      · rw [if_neg hok]
        exact ih _ hrevsla

theorem drop_move_sla (data : ProblemData) (st : SolverState)
    (h : SlaOK data st.assignment) :
    SlaOK data (drop_move data st).1.assignment :=
  dropLoop_sla data _ _ _ st h

theorem mem_sortSavings (p : Nat × ℚ) :
    ∀ l : List (Nat × ℚ), p ∈ sortSavings l → p ∈ l := by
  have hins : ∀ (q : Nat × ℚ) (l : List (Nat × ℚ)),
      p ∈ insertSaveDesc q l → p = q ∨ p ∈ l := by
    intro q l
    induction l with
    | nil => intro h; simpa [insertSaveDesc] using h
    | cons x xs ih =>
      rw [insertSaveDesc]
      by_cases hlt : x.2 < q.2
      · rw [if_pos hlt]
        intro h
        rcases List.mem_cons.1 h with rfl | h'
        · exact Or.inl rfl
        · exact Or.inr h'
      · rw [if_neg hlt]
        intro h
        rcases List.mem_cons.1 h with rfl | h'
        · exact Or.inr (List.mem_cons_self _ _)
        · rcases ih h' with h'' | h''
          · exact Or.inl h''
          · exact Or.inr (List.mem_cons_of_mem _ h'')
  intro l
  induction l with
  | nil => intro h; simpa [sortSavings] using h
  | cons x xs ih =>
    rw [sortSavings]
    intro h
    rcases hins x (sortSavings xs) h with rfl | h'
    · exact List.mem_cons_self _ _
    · exact List.mem_cons_of_mem _ (ih h')

theorem openSiteSaving_fst (data : ProblemData) (a : List ℤ)
    (new_i j : Nat) (p : Nat × ℚ)
    (h : openSiteSaving data a new_i j = some p) : p.1 = j := by
  unfold openSiteSaving at h
  dsimp only at h
  split at h
  · cases h; rfl
  · cases h

theorem foldlSet_sla (data : ProblemData) (new_i : Nat) :
    ∀ (ps : List (Nat × ℚ)) (a : List ℤ),
      (∀ p ∈ ps, can_serve data (new_i : ℤ) p.1 = true) →
      SlaOK data a →
      SlaOK data (ps.foldl (fun a p => a.set p.1 (new_i : ℤ)) a) := by
  intro ps
  induction ps with
  | nil => intro a _ h; exact h
  | cons p ps ih =>
    intro a hps h
    rw [List.foldl_cons]
    exact ih _ (fun q hq => hps q (List.mem_cons_of_mem _ hq))
      (slaOK_set data a p.1 _ h
        (Or.inr (hps p (List.mem_cons_self p ps))))

theorem openLoop_sla (data : ProblemData) (cc : Option ℚ) :
    ∀ (fs : List Nat) (st : SolverState), SlaOK data st.assignment →
      SlaOK data (openLoop data cc st fs).1.assignment := by
  intro fs
  induction fs with
  | nil => intro st h; exact h
  | cons new_i rest ih =>
    intro st h
    rw [openLoop]
    dsimp only
    by_cases hempty :
        ((List.range data.num_J).filter
          (fun j => can_serve data (new_i : ℤ) j)).isEmpty = true
    · rw [if_pos hempty]; exact ih st h
    · rw [if_neg hempty]
      have hmoved : ∀ p ∈ (sortSavings (((List.range data.num_J).filter
          (fun j => can_serve data (new_i : ℤ) j)).filterMap
            (openSiteSaving data st.assignment new_i))).take 10,
          can_serve data (new_i : ℤ) p.1 = true ∧ p.1 < data.num_J := by
        intro p hp
        have hp1 : p ∈ sortSavings (((List.range data.num_J).filter
            (fun j => can_serve data (new_i : ℤ) j)).filterMap
              (openSiteSaving data st.assignment new_i)) :=
          List.take_subset 10 _ hp
        have hp2 := mem_sortSavings p _ hp1
        rcases List.mem_filterMap.1 hp2 with ⟨j, hj, hsome⟩
        have hpj : p.1 = j := openSiteSaving_fst data st.assignment new_i j
          p hsome
        rw [hpj]
        exact ⟨List.of_mem_filter hj,
          List.mem_range.1 (List.mem_of_mem_filter hj)⟩
      have hsla1 : SlaOK data (((sortSavings (((List.range data.num_J).filter
          (fun j => can_serve data (new_i : ℤ) j)).filterMap
            (openSiteSaving data st.assignment new_i))).take 10).foldl
          (fun a p => a.set p.1 (new_i : ℤ)) st.assignment) :=
        foldlSet_sla data new_i _ st.assignment
          (fun p hp => (hmoved p hp).1) h
      have hrevsla : SlaOK data (revertSites
          (((sortSavings (((List.range data.num_J).filter
            (fun j => can_serve data (new_i : ℤ) j)).filterMap
              (openSiteSaving data st.assignment new_i))).take 10).map
            fun p => (p.1, st.assignment.getD p.1 (-1)))
          (((sortSavings (((List.range data.num_J).filter
            (fun j => can_serve data (new_i : ℤ) j)).filterMap
              (openSiteSaving data st.assignment new_i))).take 10).foldl
            (fun a p => a.set p.1 (new_i : ℤ)) st.assignment)) := by
        apply revertSites_sla data _ _ _ hsla1
        intro q hq
        rcases List.mem_map.1 hq with ⟨p, hp, rfl⟩
        exact getD_ok_of_sla data st.assignment p.1 (hmoved p hp).2 h
      by_cases hlen2 : 2 ≤ (sortSavings (((List.range data.num_J).filter
          (fun j => can_serve data (new_i : ℤ) j)).filterMap
            (openSiteSaving data st.assignment new_i))).length
      · rw [if_pos hlen2]
        by_cases himp : ltInf (calculate_total_cost data
            (((sortSavings (((List.range data.num_J).filter
              (fun j => can_serve data (new_i : ℤ) j)).filterMap
                (openSiteSaving data st.assignment new_i))).take 10).foldl
              (fun a p => a.set p.1 (new_i : ℤ)) st.assignment)) cc = true
        · rw [if_pos himp]
          exact update_sla data _ hsla1
        · rw [if_neg himp]
          exact ih _ hrevsla
      · rw [if_neg hlen2]
        exact ih st h

theorem open_move_sla (data : ProblemData) (st : SolverState)
    (h : SlaOK data st.assignment) :
    SlaOK data (open_move data st).1.assignment :=
  openLoop_sla data _ _ st h

theorem greedyAssign_sla (data : ProblemData) (st : SolverState) (j : Nat)
    (h : SlaOK data st.assignment) :
    SlaOK data (greedyAssign data st j).assignment := by
  by_cases hp : greedyPick data st j = -1
  · rw [greedyAssign_of_pick_neg data st j hp]
    exact h
  · rw [greedyAssign_of_pick data st j hp]
    exact slaOK_set data st.assignment j _ h (greedyPick_can_serve data st j)

theorem constructive_greedy_sla (data : ProblemData) :
    ∀ (l : List Nat) (st : SolverState), SlaOK data st.assignment →
      SlaOK data (l.foldl (greedyAssign data) st).assignment := by
  intro l
  induction l with
  | nil => intro st h; exact h
  | cons j l ih =>
    intro st h
    rw [List.foldl_cons]
    exact ih _ (greedyAssign_sla data st j h)

theorem localSearchPass_sla (data : ProblemData) (st : SolverState)
    (h : SlaOK data st.assignment) :
    SlaOK data (localSearchPass data st).1.assignment := by
  unfold localSearchPass
  rcases h1 : shift_move data st with ⟨st1, b1⟩
  have hs1 : SlaOK data st1.assignment := by
    have := shift_move_sla data st h
    rw [h1] at this
    exact this
  cases b1 with
  | true => exact hs1
  | false =>
    dsimp only
    rcases h2 : swap_move data st1 with ⟨st2, b2⟩
    have hs2 : SlaOK data st2.assignment := by
      have := swap_move_sla data st1 hs1
      rw [h2] at this
      exact this
    cases b2 with
    | true => exact hs2
    | false =>
      dsimp only
      rcases h3 : drop_move data st2 with ⟨st3, b3⟩
      have hs3 : SlaOK data st3.assignment := by
        have := drop_move_sla data st2 hs2
        rw [h3] at this
        exact this
      cases b3 with
      | true => exact hs3
      | false =>
        dsimp only
        rcases h4 : open_move data st3 with ⟨st4, b4⟩
        have hs4 : SlaOK data st4.assignment := by
          have := open_move_sla data st3 hs3
          rw [h4] at this
          exact this
        cases b4 with
        | true => exact hs4
        | false => exact hs4

theorem localSearchAux_sla (data : ProblemData) :
    ∀ (fuel : Nat) (st : SolverState), SlaOK data st.assignment →
      SlaOK data (localSearchAux data fuel st).assignment := by
  intro fuel
  induction fuel with
  | zero => intro st h; exact h
  | succ fuel ih =>
    intro st h
    rw [localSearchAux]
    rcases hp : localSearchPass data st with ⟨st', b⟩
    have hs' : SlaOK data st'.assignment := by
      have := localSearchPass_sla data st h
      rw [hp] at this
      exact this
    cases b with
    | true => exact ih st' hs'
    | false => exact hs'

/-- C3: the SLA invariant holds in every committed state reachable from
the fresh solver state by `constructive_greedy` followed by any number
of local-search iterations: every assigned (facility, site) pair has
`distance <= S_max`; and `can_serve` — which gates every assignment
written by the greedy stage and the Shift, Swap, Drop and Open moves —
is true exactly when `distance[facility][site] <= S_max`. -/
theorem sla_invariant (data : ProblemData) (fuel : Nat) :
    (∀ (i : ℤ) (j : Nat), can_serve data i j = true ↔
      (pyGet data.d_ij i []).getD j 0 ≤ data.S_max) ∧
    SlaOK data (localSearchAux data fuel
      (constructive_greedy data (initState data))).assignment := by
  refine ⟨can_serve_iff data, ?_⟩
  apply localSearchAux_sla
  apply constructive_greedy_sla
  intro j hj hne
  exfalso
  apply hne
  simp [initState]

/-- Witness for C3: on `cexData` the state after greedy plus local
search serves site 0 within the SLA radius. -/
theorem sla_invariant_witness :
    (pyGet cexData.d_ij ((localSearchAux cexData 5
        (constructive_greedy cexData (initState cexData))).assignment.getD
          0 (-1)) []).getD 0 0 ≤ cexData.S_max :=
  (sla_invariant cexData 5).2 0 (by decide) (by decide)

end

end HRCD
